import Mathlib

/-!
# BENXI server core — verification of the spec against the source

Shallow embedding of the BENXI messaging server (Express + PostgreSQL +
Redis).  Byte strings (`BYTEA`, `Buffer`) are modelled as `List Nat`
(one `Nat` per byte); hex strings of the JSON API are `String` and are
decoded with `hexDecode`, mirroring `Buffer.from(s, 'hex')`.  UUIDs are
modelled as `Nat` (opaque 128-bit identifiers, compared the way
PostgreSQL compares them); the stream of `gen_random_uuid()` outputs is
an explicit supply list threaded through the store.  `SERIAL` columns
are a counter in the store.  Ed25519 signature verification
(`sodium.crypto_sign_verify_detached(sig, msg, pk)`) is an abstract
parameter `sigOK : List Nat → List Nat → List Nat → Bool`.
-/

/-- One nibble of a hex digit, as in Node's hex decoding. -/
def hexVal (c : Char) : Option Nat :=
  if '0' ≤ c ∧ c ≤ '9' then some (c.toNat - '0'.toNat)
  else if 'a' ≤ c ∧ c ≤ 'f' then some (c.toNat - 'a'.toNat + 10)
  else if 'A' ≤ c ∧ c ≤ 'F' then some (c.toNat - 'A'.toNat + 10)
  else none

/-- `Buffer.from(s, 'hex')`: decode pairs of hex digits, stopping at the
first invalid pair (Node truncates there); a trailing odd digit is
dropped. -/
def hexDecodeL : List Char → List Nat
  | c1 :: c2 :: rest =>
    match hexVal c1, hexVal c2 with
    | some hi, some lo => (16 * hi + lo) :: hexDecodeL rest
    | _, _ => []
  | _ => []

/-- Decode a JSON hex field to bytes. -/
def hexDecode (s : String) : List Nat := hexDecodeL s.data

/-- Lower-case hex digit of a nibble. -/
def nibbleChar (n : Nat) : Char :=
  if n < 10 then Char.ofNat ('0'.toNat + n) else Char.ofNat ('a'.toNat + (n - 10))

/-- `buf.toString('hex')`: two lower-case hex digits per byte. -/
def bytesToHexL : List Nat → List Char
  | [] => []
  | b :: bs => nibbleChar ((b % 256) / 16) :: nibbleChar (b % 16) :: bytesToHexL bs

/-- Hex encoding of a byte string, as returned in JSON responses. -/
def bytesToHex (bs : List Nat) : String := String.mk (bytesToHexL bs)

theorem bytesToHexL_length (bs : List Nat) : (bytesToHexL bs).length = 2 * bs.length := by
  induction bs with
  | nil => rfl
  | cons b bs ih => simp [bytesToHexL, ih]; omega

theorem bytesToHex_length (bs : List Nat) : (bytesToHex bs).length = 2 * bs.length := by
  simp [bytesToHex, String.length, bytesToHexL_length]

/-! ## Durable store (PostgreSQL) — `src/db/init.sql` -/

/-- Row of `accounts`: `id UUID PRIMARY KEY`, `public_key BYTEA UNIQUE`,
`registration_id INTEGER`.  (`created_at` is never read by any route
handler and carries no information the claims mention.) -/
structure AccountRow where
  id : Nat
  public_key : List Nat
  registration_id : Int
deriving DecidableEq

/-- Row of `signed_prekeys` (`UNIQUE (account_id)`). -/
structure SPKRow where
  account_id : Nat
  key_id : Int
  public_key : List Nat
  signature : List Nat
deriving DecidableEq

/-- Row of `one_time_prekeys`: `id SERIAL PRIMARY KEY`,
`UNIQUE (account_id, key_id)`. -/
structure OTPKRow where
  rowId : Nat
  account_id : Nat
  key_id : Int
  public_key : List Nat
deriving DecidableEq

/-- Row of `message_queue`: `id UUID PRIMARY KEY DEFAULT gen_random_uuid()`,
`recipient_id UUID REFERENCES accounts(id)`, `ciphertext BYTEA`,
`message_type SMALLINT DEFAULT 1`, `expires_at TIMESTAMPTZ DEFAULT
NOW() + INTERVAL '30 days'`.  The schema holds no sender column. -/
structure MsgRow where
  id : Nat
  recipient_id : Nat
  ciphertext : List Nat
  message_type : Int
  expires_at : Nat
deriving DecidableEq

/-- The durable store plus the id generators: `uuidSupply` is the stream
of `gen_random_uuid()` outputs (head consumed first), `otpkSerial` the
next `SERIAL` value of `one_time_prekeys`. -/
structure DB where
  accounts : List AccountRow
  signed_prekeys : List SPKRow
  one_time_prekeys : List OTPKRow
  message_queue : List MsgRow
  otpkSerial : Nat
  uuidSupply : List Nat
deriving DecidableEq

/-- `SELECT id FROM accounts WHERE public_key = $1`. -/
def accountByPubKey (db : DB) (pk : List Nat) : Option AccountRow :=
  db.accounts.find? (fun a => a.public_key = pk)

/-- `SELECT ... FROM accounts WHERE id = $1`. -/
def accountById (db : DB) (aid : Nat) : Option AccountRow :=
  db.accounts.find? (fun a => a.id = aid)

/-- Is a `(account_id, key_id)` pair present in `one_time_prekeys`? -/
def otpkPairPresent (db : DB) (acct : Nat) (kid : Int) : Bool :=
  db.one_time_prekeys.any (fun r => r.account_id = acct ∧ r.key_id = kid)

/-- `SELECT COUNT(*) FROM one_time_prekeys WHERE account_id = $1`. -/
def otpkCount (db : DB) (acct : Nat) : Nat :=
  (db.one_time_prekeys.filter (fun r => r.account_id = acct)).length

/-! ## Ephemeral store (Redis) — `src/cache/redis.js` users

Entries carry an absolute expiry instant; an entry is alive at `now`
when `now < expiresAt` (set with `EX ttl` at time `t` gives
`expiresAt = t + ttl`).  Expired keys behave as absent, as in Redis. -/

structure RedisEntry where
  key : String
  value : String
  expiresAt : Nat
deriving DecidableEq

structure Redis where
  entries : List RedisEntry
deriving DecidableEq

/-- `redis.set(k, v, 'EX', ttl)` at time `now`: replaces any entry under
`k`. -/
def Redis.set (r : Redis) (k v : String) (expiresAt : Nat) : Redis :=
  ⟨⟨k, v, expiresAt⟩ :: r.entries.filter (fun e => ¬ e.key = k)⟩

/-- `redis.getdel(k)` at time `now`: atomically return the live value
under `k` (or `none`) and remove the key. -/
def Redis.getdel (r : Redis) (k : String) (now : Nat) : Option String × Redis :=
  (match r.entries.find? (fun e => e.key = k) with
   | some e => if now < e.expiresAt then some e.value else none
   | none => none,
   ⟨r.entries.filter (fun e => ¬ e.key = k)⟩)

/-! ## Key service — `src/api/keys.js` -/

/-- The inner `SELECT id FROM one_time_prekeys WHERE account_id = $1
ORDER BY id ASC LIMIT 1`: the row with the smallest `SERIAL` id among
the target account's pool. -/
def oldestOTPK (rows : List OTPKRow) (acct : Nat) : Option OTPKRow :=
  (rows.filter (fun r => r.account_id = acct)).foldl
    (fun best r =>
      match best with
      | none => some r
      | some b => if r.rowId < b.rowId then some r else some b)
    none

/-- The single `DELETE ... WHERE id = (SELECT ...) RETURNING key_id,
public_key` statement of the bundle fetch: return the consumed row (if
any) and the store with that row gone.  One SQL statement, hence one
atomic operation. -/
def consumeOTPK (db : DB) (acct : Nat) : Option OTPKRow × DB :=
  match oldestOTPK db.one_time_prekeys acct with
  | none => (none, db)
  | some r => (some r, { db with one_time_prekeys := db.one_time_prekeys.filter (fun s => ¬ s.rowId = r.rowId) })

/-- Prekey-bundle response of `GET /api/v1/keys/:account_id`. -/
inductive KeysResp where
  | accountNotFound
  | noSignedPrekey
  | bundle (registration_id : Int) (identity_key : String)
      (spk_key_id : Int) (spk_public_key : String) (spk_signature : String)
      (one_time_prekey : Option (Int × String))
      (prekey_count : Nat) (needs_prekey_refresh : Bool)
deriving DecidableEq

/-- `GET /api/v1/keys/:account_id` (threshold is
`PREKEY_REFILL_THRESHOLD || 10`): fetch identity key and signed prekey,
consume one one-time prekey if available, then count the remainder. -/
def getBundleHandler (db : DB) (account_id : Nat) (threshold : Nat) : KeysResp × DB :=
  match accountById db account_id with
  | none => (.accountNotFound, db)
  | some acct =>
    match db.signed_prekeys.find? (fun s => s.account_id = account_id) with
    | none => (.noSignedPrekey, db)
    | some spk =>
      let res := consumeOTPK db account_id
      let remaining := otpkCount res.2 account_id
      (.bundle acct.registration_id (bytesToHex acct.public_key)
        spk.key_id (bytesToHex spk.public_key) (bytesToHex spk.signature)
        (res.1.map (fun r => (r.key_id, bytesToHex r.public_key)))
        remaining (decide (remaining < threshold)), res.2)

/-- One uploaded prekey `{key_id, public_key}` of the JSON body. -/
structure OTPKBody where
  key_id : Int
  public_key : String
deriving DecidableEq

/-- `INSERT INTO one_time_prekeys ... ON CONFLICT (account_id, key_id)
DO NOTHING` for one uploaded key. -/
def insertOTPKDoNothing (db : DB) (acct : Nat) (k : OTPKBody) : DB :=
  if otpkPairPresent db acct k.key_id then db
  else { db with
         one_time_prekeys := db.one_time_prekeys ++ [⟨db.otpkSerial, acct, k.key_id, hexDecode k.public_key⟩],
         otpkSerial := db.otpkSerial + 1 }

/-- The upsert loop of `PUT /api/v1/keys/prekeys`. -/
def insertOTPKsDoNothing (db : DB) (acct : Nat) : List OTPKBody → DB
  | [] => db
  | k :: ks => insertOTPKsDoNothing (insertOTPKDoNothing db acct k) acct ks

/-- Response of `PUT /api/v1/keys/prekeys`. -/
inductive ReplenishResp where
  | missingPrekeys
  | tooManyPrekeys
  | ok (uploaded : Nat) (total : Nat)
deriving DecidableEq

/-- `PUT /api/v1/keys/prekeys` (authenticated as `acct`): array must be
present, non-empty and of length ≤ 200; each entry is inserted with
`ON CONFLICT DO NOTHING`; responds with the array length and the new
pool count. -/
def replenishHandler (db : DB) (acct : Nat) (body : Option (List OTPKBody)) : ReplenishResp × DB :=
  match body with
  | none => (.missingPrekeys, db)
  | some ks =>
    if ks.length = 0 then (.missingPrekeys, db)
    else if 200 < ks.length then (.tooManyPrekeys, db)
    else
      let db2 := insertOTPKsDoNothing db acct ks
      (.ok ks.length (otpkCount db2 acct), db2)

/-! ## Message relay — `src/api/messages.js` -/

/-- JSON body of `POST /api/v1/messages/send`; absent fields are `none`
(JS `undefined`). -/
structure SendBody where
  recipient_id : Option Nat
  ciphertext : Option String
  message_type : Option Int
deriving DecidableEq

/-- Response of `POST /api/v1/messages/send`. -/
inductive SendResp where
  | missingFields
  | messageTooLarge
  | recipientNotFound
  | created (message_id : Nat)
deriving DecidableEq

/-- `POST /api/v1/messages/send`, authenticated as `senderAcct` (the
handler has `req.account_id` in scope but never writes it).  Validates
presence, size (≤ 262144 bytes) and recipient existence, then inserts a
queue row whose id is the next `gen_random_uuid()` output. -/
def sendHandler (db : DB) (senderAcct : Nat) (body : SendBody) (now : Nat) : SendResp × DB :=
  match body.recipient_id, body.ciphertext with
  | some rid, some ct =>
    if ct = "" then (.missingFields, db)
    else
      let ctBytes := hexDecode ct
      if 262144 < ctBytes.length then (.messageTooLarge, db)
      else
        match accountById db rid with
        | none => (.recipientNotFound, db)
        | some _ =>
          let mid := db.uuidSupply.headD 0
          let row : MsgRow := ⟨mid, rid, ctBytes, body.message_type.getD 1, now + 2592000⟩
          (.created mid,
           { db with message_queue := db.message_queue ++ [row],
                     uuidSupply := db.uuidSupply.tail })
  | _, _ => (.missingFields, db)

/-- Insert into the list sorted by `id` (ascending), keeping stability. -/
def insertById (m : MsgRow) : List MsgRow → List MsgRow
  | [] => [m]
  | x :: xs => if m.id ≤ x.id then m :: x :: xs else x :: insertById m xs

/-- `ORDER BY id ASC` over queue rows. -/
def sortById : List MsgRow → List MsgRow
  | [] => []
  | x :: xs => insertById x (sortById xs)

/-- The rows selected by `GET /api/v1/messages/receive`:
`WHERE recipient_id = $1 ORDER BY id ASC LIMIT 100`. -/
def receiveRows (db : DB) (acct : Nat) : List MsgRow :=
  (sortById (db.message_queue.filter (fun r => r.recipient_id = acct))).take 100

/-- `GET /api/v1/messages/receive`: each selected row is rendered as
`{id, ciphertext (hex), message_type}` — no sender, no timestamp. -/
def receiveHandler (db : DB) (acct : Nat) : List (Nat × String × Int) :=
  (receiveRows db acct).map (fun r => (r.id, bytesToHex r.ciphertext, r.message_type))

/-- Response of `DELETE /api/v1/messages/:id`. -/
inductive DeleteResp where
  | messageNotFound
  | deleted
deriving DecidableEq

/-- `DELETE /api/v1/messages/:id`, authenticated as `acct`:
`DELETE ... WHERE id = $1 AND recipient_id = $2 RETURNING id`;
404 when no row matched. -/
def deleteHandler (db : DB) (acct : Nat) (mid : Nat) : DeleteResp × DB :=
  let matched := db.message_queue.filter (fun r => r.id = mid ∧ r.recipient_id = acct)
  let db2 := { db with message_queue := db.message_queue.filter (fun r => ¬ (r.id = mid ∧ r.recipient_id = acct)) }
  if matched.length = 0 then (.messageNotFound, db) else (.deleted, db2)

/-! ## Auth routes — `src/api/auth.js` -/

/-- JS truthiness of a string field (`!x`): absent or empty is falsy. -/
def truthyStr : Option String → Bool
  | none => false
  | some s => ¬ s = ""

/-- JS truthiness of a number field (`!x`): absent or `0` is falsy. -/
def truthyInt : Option Int → Bool
  | none => false
  | some n => ¬ n = 0

/-- JS truthiness of an object or array field: any present object is
truthy (even an empty array). -/
def truthyObj {α : Type} : Option α → Bool
  | none => false
  | some _ => true

/-- `signed_prekey` object of the register body. -/
structure SPKBody where
  key_id : Int
  public_key : String
  signature : String
deriving DecidableEq

/-- JSON body of `POST /api/v1/accounts/register`; absent fields are
`none`. -/
structure RegisterBody where
  public_key : Option String
  registration_id : Option Int
  signed_prekey : Option SPKBody
  one_time_prekeys : Option (List OTPKBody)
deriving DecidableEq

/-- Response of `POST /api/v1/accounts/register`. -/
inductive RegisterResp where
  | missingFields
  | invalidKeyLength
  | invalidSignedPrekeySignature
  | keyAlreadyRegistered
  | created (account_id : Nat)
deriving DecidableEq

/-- The `INSERT INTO one_time_prekeys` loop of register: plain inserts
(no ON CONFLICT clause), each auto-committed.  A unique violation on
`(account_id, key_id)` aborts the loop; rows inserted before it
persist.  Returns `(success, store)`. -/
def insertOTPKsStrict (db : DB) (acct : Nat) : List OTPKBody → Bool × DB
  | [] => (true, db)
  | k :: ks =>
    if otpkPairPresent db acct k.key_id then (false, db)
    else insertOTPKsStrict
      { db with
        one_time_prekeys := db.one_time_prekeys ++ [⟨db.otpkSerial, acct, k.key_id, hexDecode k.public_key⟩],
        otpkSerial := db.otpkSerial + 1 } acct ks

/-- `POST /api/v1/accounts/register`.  Each of the three inserts is a
separate `pool.query` call (its own implicit transaction); a unique
violation anywhere is caught at the handler boundary and mapped to 409
`key_already_registered`, leaving every already-committed row in
place. -/
def registerHandler (sigOK : List Nat → List Nat → List Nat → Bool)
    (db : DB) (body : RegisterBody) : RegisterResp × DB :=
  if ¬ (truthyStr body.public_key ∧ truthyInt body.registration_id ∧
        truthyObj body.signed_prekey ∧ truthyObj body.one_time_prekeys) then
    (.missingFields, db)
  else
    match body.public_key, body.registration_id, body.signed_prekey, body.one_time_prekeys with
    | some pk, some rid, some spk, some otpks =>
      let pubKeyBytes := hexDecode pk
      if ¬ pubKeyBytes.length = 32 then (.invalidKeyLength, db)
      else
        let spkPubKey := hexDecode spk.public_key
        let spkSig := hexDecode spk.signature
        if ¬ sigOK spkSig spkPubKey pubKeyBytes then (.invalidSignedPrekeySignature, db)
        else
          -- INSERT INTO accounts: UNIQUE (public_key)
          if (accountByPubKey db pubKeyBytes).isSome then (.keyAlreadyRegistered, db)
          else
            let accountId := db.uuidSupply.headD 0
            let db1 : DB := { db with
                         accounts := db.accounts ++ [⟨accountId, pubKeyBytes, rid⟩],
                         uuidSupply := db.uuidSupply.tail }
            -- INSERT INTO signed_prekeys: UNIQUE (account_id)
            if (db1.signed_prekeys.find? (fun s => s.account_id = accountId)).isSome then
              (.keyAlreadyRegistered, db1)
            else
              let db2 : DB := { db1 with
                           signed_prekeys := db1.signed_prekeys ++ [⟨accountId, spk.key_id, spkPubKey, spkSig⟩] }
              let res := insertOTPKsStrict db2 accountId otpks
              if res.1 then (.created accountId, res.2) else (.keyAlreadyRegistered, res.2)
    | _, _, _, _ => (.missingFields, db)

/-- Response of `POST /api/v1/accounts/challenge`. -/
inductive ChallengeResp where
  | missingFields
  | ok (nonce : String)
deriving DecidableEq

/-- `POST /api/v1/accounts/challenge` at time `now`.  `nonceBytes` is
the output of `crypto.randomBytes(32)` for this request.  When the
account exists the hex nonce is stored under `challenge:<pubkey>` with
`EX 120`; when it does not, the same-shaped response is returned with
no store write. -/
def challengeHandler (db : DB) (r : Redis) (public_key : Option String)
    (nonceBytes : List Nat) (now : Nat) : ChallengeResp × Redis :=
  if ¬ truthyStr public_key then (.missingFields, r)
  else
    match public_key with
    | some pk =>
      match accountByPubKey db (hexDecode pk) with
      | none => (.ok (bytesToHex nonceBytes), r)
      | some _ =>
        (.ok (bytesToHex nonceBytes),
         r.set (String.append "challenge:" pk) (bytesToHex nonceBytes) (now + 120))
    | none => (.missingFields, r)

/-- Response of `POST /api/v1/accounts/verify`. -/
inductive VerifyResp where
  | missingFields
  | invalidOrExpiredChallenge
  | invalidSignature
  | accountNotFound
  | token (account_id : Nat) (jti : Nat)
deriving DecidableEq

/-- HTTP status of a verify response (all failures are 400/401). -/
def VerifyResp.status : VerifyResp → Nat
  | .missingFields => 400
  | .invalidOrExpiredChallenge => 401
  | .invalidSignature => 401
  | .accountNotFound => 401
  | .token _ _ => 200

/-- `POST /api/v1/accounts/verify` at time `now` (`jti` is the fresh
`uuidv4()` of this request).  The stored nonce is consumed with
`redis.getdel` BEFORE the signature is checked; only afterwards are the
signature and the account examined. -/
def verifyHandler (sigOK : List Nat → List Nat → List Nat → Bool)
    (db : DB) (r : Redis) (public_key signature : Option String)
    (now : Nat) (jti : Nat) : VerifyResp × Redis :=
  if ¬ (truthyStr public_key ∧ truthyStr signature) then (.missingFields, r)
  else
    match public_key, signature with
    | some pk, some sig =>
      let res := r.getdel (String.append "challenge:" pk) now
      match res.1 with
      | none => (.invalidOrExpiredChallenge, res.2)
      | some nonce =>
        if ¬ sigOK (hexDecode sig) (hexDecode nonce) (hexDecode pk) then
          (.invalidSignature, res.2)
        else
          match accountByPubKey db (hexDecode pk) with
          | none => (.accountNotFound, res.2)
          | some acct => (.token acct.id jti, res.2)
    | _, _ => (.missingFields, r)

/-! ## Key-service operation traces (for prekey single-use) -/

/-- An operation touching the `one_time_prekeys` table: a bundle fetch
(`GET /keys/:target`) or a replenish (`PUT /keys/prekeys` by `acct`). -/
inductive KeyOp where
  | fetch (target : Nat)
  | replenish (acct : Nat) (keys : List OTPKBody)
deriving DecidableEq

/-- Effect of one key-service operation on the durable store (the
process-wide refill threshold defaults to 10). -/
def keyStep (db : DB) : KeyOp → DB
  | .fetch t => (getBundleHandler db t 10).2
  | .replenish a ks => (replenishHandler db a (some ks)).2

/-- A sequence of key-service operations, applied left to right. -/
def runKeyOps (db : DB) (ops : List KeyOp) : DB := List.foldl keyStep db ops

/-- Does the operation re-upload a prekey with key id `k` for account
`a`? -/
def replenishesPair (a : Nat) (k : Int) : KeyOp → Bool
  | .fetch _ => false
  | .replenish acct ks => decide (acct = a) && ks.any (fun b => b.key_id = k)

/-- The key id of the one-time prekey, if any, carried by a bundle
response. -/
def bundleOTPKKeyId : KeysResp → Option Int
  | .bundle _ _ _ _ _ otpk _ _ => otpk.map Prod.fst
  | _ => none

/-- The one-time-prekey slot of a bundle response: `some payload` for a
successful bundle (`payload = none` meaning `one_time_prekey: null`),
`none` for a 404. -/
def bundleOTPKSlot : KeysResp → Option (Option (Int × String))
  | .bundle _ _ _ _ _ otpk _ _ => some otpk
  | _ => none

/-- The fold computing `oldestOTPK` yields an element of the list or the
initial accumulator. -/
theorem oldestFold_mem (l : List OTPKRow) :
    ∀ (acc : Option OTPKRow) (r : OTPKRow),
      l.foldl (fun best s =>
        match best with
        | none => some s
        | some b => if s.rowId < b.rowId then some s else some b) acc = some r →
      acc = some r ∨ r ∈ l := by
  induction l with
  | nil => intro acc r h; exact Or.inl h
  | cons x xs ih =>
    intro acc r h
    rcases ih _ r h with h1 | h1
    · cases acc with
      | none =>
        simp only [] at h1
        exact Or.inr (by simp [← Option.some.inj h1])
      | some b =>
        simp only [] at h1
        by_cases hx : x.rowId < b.rowId
        · simp [hx] at h1; exact Or.inr (by simp [← h1])
        · simp [hx] at h1; exact Or.inl (by simp [← h1])
    · exact Or.inr (List.mem_cons_of_mem _ h1)

/-- The fold computing `oldestOTPK` yields a lower bound for `rowId`
over the list and the accumulator. -/
theorem oldestFold_min (l : List OTPKRow) :
    ∀ (acc : Option OTPKRow) (r : OTPKRow),
      l.foldl (fun best s =>
        match best with
        | none => some s
        | some b => if s.rowId < b.rowId then some s else some b) acc = some r →
      (∀ b, acc = some b → r.rowId ≤ b.rowId) ∧ (∀ s ∈ l, r.rowId ≤ s.rowId) := by
  induction l with
  | nil =>
    intro acc r h
    refine ⟨fun b hb => ?_, fun s hs => absurd hs (List.not_mem_nil s)⟩
    simp only [List.foldl_nil] at h; rw [hb] at h; simp [Option.some.inj h]
  | cons x xs ih =>
    intro acc r h
    simp only [List.foldl_cons] at h
    have hstep := ih _ r h
    rcases hstep with ⟨hacc, hxs⟩
    cases acc with
    | none =>
      have hx : r.rowId ≤ x.rowId := hacc x rfl
      refine ⟨(fun b hb => by cases hb), fun s hs => ?_⟩
      rcases List.mem_cons.mp hs with h1 | h1
      · rw [h1]; exact hx
      · exact hxs s h1
    | some b =>
      by_cases hlt : x.rowId < b.rowId
      · simp only [hlt, if_pos] at hacc
        have hx : r.rowId ≤ x.rowId := hacc x rfl
        refine ⟨fun c hc => ?_, fun s hs => ?_⟩
        · have := Option.some.inj hc; rw [← this]; omega
        · rcases List.mem_cons.mp hs with h1 | h1
          · rw [h1]; exact hx
          · exact hxs s h1
      · simp only [hlt, if_neg, not_false_iff] at hacc
        have hb : r.rowId ≤ b.rowId := hacc b rfl
        refine ⟨fun c hc => ?_, fun s hs => ?_⟩
        · have := Option.some.inj hc; rw [← this]; exact hb
        · rcases List.mem_cons.mp hs with h1 | h1
          · rw [h1]; omega
          · exact hxs s h1

/-- A consumed row belongs to the pool of the target account and has
the smallest `SERIAL` id there. -/
theorem oldestOTPK_spec (rows : List OTPKRow) (acct : Nat) (r : OTPKRow)
    (h : oldestOTPK rows acct = some r) :
    r ∈ rows ∧ r.account_id = acct ∧
      ∀ s ∈ rows, s.account_id = acct → r.rowId ≤ s.rowId := by
  unfold oldestOTPK at h
  have hmem := oldestFold_mem (rows.filter (fun q => q.account_id = acct)) none r h
  rcases hmem with h1 | h1
  · cases h1
  · have hmf := List.mem_filter.mp h1
    have hmin := (oldestFold_min (rows.filter (fun q => q.account_id = acct)) none r h).2
    refine ⟨hmf.1, by simpa using hmf.2, fun s hs hacct => ?_⟩
    exact hmin s (List.mem_filter.mpr ⟨hs, by simpa using hacct⟩)

/-- The pool of the target account is empty exactly when no prekey is
consumed. -/
theorem oldestOTPK_none_iff (rows : List OTPKRow) (acct : Nat) :
    oldestOTPK rows acct = none ↔ rows.filter (fun q => q.account_id = acct) = [] := by
  unfold oldestOTPK
  constructor
  · intro h
    cases hf : rows.filter (fun q => q.account_id = acct) with
    | nil => rfl
    | cons x xs =>
      rw [hf] at h
      exfalso
      have : ∀ (l : List OTPKRow) (b : OTPKRow),
          l.foldl (fun best s =>
            match best with
            | none => some s
            | some c => if s.rowId < c.rowId then some s else some c) (some b) ≠ none := by
        intro l
        induction l with
        | nil => intro b hb; cases hb
        | cons y ys ihy =>
          intro b
          simp only [List.foldl_cons]
          by_cases hy : y.rowId < b.rowId
          · simp only [hy, if_pos]; exact ihy y
          · simp only [hy, if_neg, not_false_iff]; exact ihy b
      simp only [List.foldl_cons] at h
      exact this xs x h
  · intro h; rw [h]; rfl

/-- What `consumeOTPK` does on a non-empty pool. -/
theorem consumeOTPK_some (db : DB) (acct : Nat) (r : OTPKRow)
    (h : (consumeOTPK db acct).1 = some r) :
    r ∈ db.one_time_prekeys ∧ r.account_id = acct ∧
      (∀ s ∈ db.one_time_prekeys, s.account_id = acct → r.rowId ≤ s.rowId) ∧
      (consumeOTPK db acct).2.one_time_prekeys
        = db.one_time_prekeys.filter (fun s => ¬ s.rowId = r.rowId) := by
  cases hsel : oldestOTPK db.one_time_prekeys acct with
  | none =>
    simp only [consumeOTPK, hsel] at h
    exact Option.noConfusion h
  | some q =>
    simp only [consumeOTPK, hsel, Option.some.injEq] at h
    subst h
    have hs := oldestOTPK_spec db.one_time_prekeys acct q hsel
    exact ⟨hs.1, hs.2.1, hs.2.2, by simp only [consumeOTPK, hsel]⟩

/-- `consumeOTPK` returns `none` exactly on an empty pool, and then
leaves the store untouched. -/
theorem consumeOTPK_none_iff (db : DB) (acct : Nat) :
    ((consumeOTPK db acct).1 = none ↔
      db.one_time_prekeys.filter (fun q => q.account_id = acct) = []) ∧
    ((consumeOTPK db acct).1 = none → (consumeOTPK db acct).2 = db) := by
  cases hsel : oldestOTPK db.one_time_prekeys acct with
  | none =>
    refine ⟨⟨fun _ => (oldestOTPK_none_iff _ acct).mp hsel, fun _ => ?_⟩, fun _ => ?_⟩
    · simp [consumeOTPK, hsel]
    · simp [consumeOTPK, hsel]
  | some q =>
    have hq : (consumeOTPK db acct).1 = some q := by simp [consumeOTPK, hsel]
    refine ⟨⟨fun h => ?_, fun hf => ?_⟩, fun h => ?_⟩
    · rw [hq] at h; exact Option.noConfusion h
    · exfalso
      have h2 := (oldestOTPK_none_iff db.one_time_prekeys acct).mpr hf
      rw [hsel] at h2
      exact Option.noConfusion h2
    · rw [hq] at h; exact Option.noConfusion h

/-- Peeling the bundle handler: a bundle response carrying key id `k`
means the DELETE consumed a row with that key id, and the resulting
store is the one `consumeOTPK` leaves. -/
theorem getBundle_consumed (db : DB) (a : Nat) (th : Nat) (k : Int)
    (h : bundleOTPKKeyId (getBundleHandler db a th).1 = some k) :
    ∃ r, (consumeOTPK db a).1 = some r ∧ r.key_id = k ∧
      (getBundleHandler db a th).2 = (consumeOTPK db a).2 := by
  cases hacct : accountById db a with
  | none =>
    simp only [getBundleHandler, hacct, bundleOTPKKeyId] at h
    exact Option.noConfusion h
  | some acct =>
    cases hspk : db.signed_prekeys.find? (fun s => s.account_id = a) with
    | none =>
      simp only [getBundleHandler, hacct, hspk, bundleOTPKKeyId] at h
      exact Option.noConfusion h
    | some spk =>
      cases hcons : (consumeOTPK db a).1 with
      | none =>
        simp only [getBundleHandler, hacct, hspk, bundleOTPKKeyId, hcons, Option.map_none'] at h
        exact Option.noConfusion h
      | some r =>
        simp only [getBundleHandler, hacct, hspk, bundleOTPKKeyId, hcons, Option.map_some',
          Option.some.injEq] at h
        exact ⟨r, by simp [hcons], h, by simp only [getBundleHandler, hacct, hspk]⟩

/-- The store a bundle fetch leaves is the one `consumeOTPK` leaves,
whatever the response was. -/
theorem getBundle_db (db : DB) (a : Nat) (th : Nat) :
    (getBundleHandler db a th).2 = db ∨
    (getBundleHandler db a th).2 = (consumeOTPK db a).2 := by
  cases hacct : accountById db a with
  | none => exact Or.inl (by simp only [getBundleHandler, hacct])
  | some acct =>
    cases hspk : db.signed_prekeys.find? (fun s => s.account_id = a) with
    | none => exact Or.inl (by simp only [getBundleHandler, hacct, hspk])
    | some spk => exact Or.inr (by simp only [getBundleHandler, hacct, hspk])

/-- A fetch only removes rows from `one_time_prekeys`. -/
theorem fetch_rows_subset (db : DB) (t th : Nat) (r : OTPKRow)
    (h : r ∈ (getBundleHandler db t th).2.one_time_prekeys) :
    r ∈ db.one_time_prekeys := by
  rcases getBundle_db db t th with hdb | hdb
  · rw [hdb] at h; exact h
  · rw [hdb] at h
    cases hsel : oldestOTPK db.one_time_prekeys t with
    | none => simp only [consumeOTPK, hsel] at h; exact h
    | some q =>
      simp only [consumeOTPK, hsel] at h
      exact (List.mem_filter.mp h).1

/-- A pair that is absent stays absent under one `ON CONFLICT DO
NOTHING` insert of a different pair. -/
theorem insertOTPKDoNothing_absent (db : DB) (acct : Nat) (key : OTPKBody)
    (a : Nat) (k : Int) (hne : ¬ (acct = a ∧ key.key_id = k))
    (h : otpkPairPresent db a k = false) :
    otpkPairPresent (insertOTPKDoNothing db acct key) a k = false := by
  cases hp : otpkPairPresent db acct key.key_id with
  | true => simp [insertOTPKDoNothing, hp, h]
  | false =>
    have hins : insertOTPKDoNothing db acct key
        = { db with
            one_time_prekeys := db.one_time_prekeys
              ++ [⟨db.otpkSerial, acct, key.key_id, hexDecode key.public_key⟩],
            otpkSerial := db.otpkSerial + 1 } := by
      simp [insertOTPKDoNothing, hp]
    rw [hins]
    unfold otpkPairPresent at h ⊢
    simp only [List.any_append, List.any_cons, List.any_nil, Bool.or_false,
      Bool.or_eq_false_iff]
    refine ⟨h, ?_⟩
    rw [decide_eq_false_iff_not]
    intro hcon
    exact hne ⟨hcon.1, hcon.2⟩

/-- A pair that is absent stays absent under a replenish upsert loop
that never re-uploads it. -/
theorem insertOTPKsDoNothing_absent (acct : Nat) (a : Nat) (k : Int) :
    ∀ (ks : List OTPKBody) (db : DB),
      (¬ (acct = a ∧ ks.any (fun b => b.key_id = k) = true)) →
      otpkPairPresent db a k = false →
      otpkPairPresent (insertOTPKsDoNothing db acct ks) a k = false := by
  intro ks
  induction ks with
  | nil => intro db _ h; exact h
  | cons key rest ih =>
    intro db hne h
    simp only [insertOTPKsDoNothing]
    apply ih
    · intro hcon
      exact hne ⟨hcon.1, by simp [List.any_cons, hcon.2]⟩
    · apply insertOTPKDoNothing_absent db acct key a k _ h
      intro hcon
      exact hne ⟨hcon.1, by simp [List.any_cons, hcon.2]⟩

/-- One key-service operation that does not re-upload the pair keeps an
absent pair absent. -/
theorem keyStep_absent (db : DB) (op : KeyOp) (a : Nat) (k : Int)
    (hop : replenishesPair a k op = false)
    (h : otpkPairPresent db a k = false) :
    otpkPairPresent (keyStep db op) a k = false := by
  cases op with
  | fetch t =>
    simp only [keyStep]
    rw [Bool.eq_false_iff]
    intro hpres
    rw [Bool.eq_false_iff] at h
    apply h
    unfold otpkPairPresent at hpres ⊢
    rw [List.any_eq_true] at hpres ⊢
    rcases hpres with ⟨r, hr, hprop⟩
    exact ⟨r, fetch_rows_subset db t 10 r hr, hprop⟩
  | replenish acct ks =>
    simp only [keyStep, replenishHandler]
    by_cases h0 : ks.length = 0
    · simp [h0, h]
    · by_cases h200 : 200 < ks.length
      · simp [h0, h200, h]
      · simp only [h0, h200, if_neg, if_false]
        apply insertOTPKsDoNothing_absent acct a k ks db _ h
        intro hcon
        simp only [replenishesPair] at hop
        rw [Bool.and_eq_false_iff] at hop
        rcases hop with hop | hop
        · rw [decide_eq_false_iff_not] at hop; exact hop hcon.1
        · rw [hop] at hcon; exact Bool.noConfusion hcon.2

/-- A whole trace of key-service operations, none of which re-uploads
the pair, keeps an absent pair absent. -/
theorem runKeyOps_absent (a : Nat) (k : Int) :
    ∀ (ops : List KeyOp) (db : DB),
      (∀ op ∈ ops, replenishesPair a k op = false) →
      otpkPairPresent db a k = false →
      otpkPairPresent (runKeyOps db ops) a k = false := by
  intro ops
  induction ops with
  | nil => intro db _ h; exact h
  | cons op rest ih =>
    intro db hops h
    simp only [runKeyOps, List.foldl_cons]
    exact ih (keyStep db op)
      (fun o ho => hops o (List.mem_cons_of_mem _ ho))
      (keyStep_absent db op a k (hops op (List.mem_cons_self _ _)) h)

/-- A bundle fetch can only return a pair that is present in the
store. -/
theorem fetch_returns_present (db : DB) (a : Nat) (th : Nat) (k : Int)
    (h : bundleOTPKKeyId (getBundleHandler db a th).1 = some k) :
    otpkPairPresent db a k = true := by
  rcases getBundle_consumed db a th k h with ⟨r, hcons, hk, _⟩
  have hs := consumeOTPK_some db a r hcons
  unfold otpkPairPresent
  rw [List.any_eq_true]
  exact ⟨r, hs.1, by simp [hs.2.1, hk]⟩

/-- Two distinct rows of a pool satisfying the `UNIQUE (account_id,
key_id)` constraint never carry the same pair. -/
theorem pairwise_distinct_pairs (rows : List OTPKRow)
    (hwf : rows.Pairwise (fun r s => ¬ (r.account_id = s.account_id ∧ r.key_id = s.key_id))) :
    ∀ r ∈ rows, ∀ s ∈ rows, ¬ r = s →
      ¬ (r.account_id = s.account_id ∧ r.key_id = s.key_id) := by
  induction rows with
  | nil => intro r hr; exact absurd hr (List.not_mem_nil r)
  | cons x xs ih =>
    intro r hr s hs hne
    rcases List.pairwise_cons.mp hwf with ⟨hx, hxs⟩
    rcases List.mem_cons.mp hr with h1 | h1 <;> rcases List.mem_cons.mp hs with h2 | h2
    · exact absurd (h1.trans h2.symm) hne
    · subst h1; exact hx s h2
    · subst h2
      intro hcon
      exact hx r h1 ⟨hcon.1.symm, hcon.2.symm⟩
    · exact ih hxs r h1 s h2 hne

/-- Concrete store for C1: one account (id 100), its signed prekey, and
a single one-time prekey with key id 1 and `SERIAL` id 1. -/
def C1db : DB :=
  ⟨[⟨100, [1], 7⟩], [⟨100, 5, [2], [3]⟩], [⟨1, 100, 1, [4]⟩], [], 2, []⟩

/-- C1, counterexample to the claim as stated: on `C1db`, a bundle
fetch for account 100 consumes the one-time prekey with key id 1, yet
after a replenish re-uploads key id 1 (`PUT /keys/prekeys`, a silent
insert since the consumed row is gone), a subsequent fetch returns the
same (account, key-id) pair (100, 1) again — so "no subsequent fetch
ever returns the same (account, key-id) pair" fails. -/
theorem C1_counterexample :
    bundleOTPKKeyId (getBundleHandler C1db 100 10).1 = some 1 ∧
    bundleOTPKKeyId
      (getBundleHandler
        (runKeyOps (getBundleHandler C1db 100 10).2 [KeyOp.replenish 100 [⟨1, "04"⟩]])
        100 10).1 = some 1 := by decide

/-- C1 (amended): a bundle fetch consumes the oldest one-time prekey
of the target account — the row with the smallest serial id — deleting
it in the same single SQL statement; with an empty pool the bundle
carries a null one-time prekey (and the store is untouched); and for
every pair consumed by a successful fetch, no subsequent fetch returns
the same (account, key-id) pair as long as no replenish re-uploads a
prekey with that key id for that account in the interim. -/
theorem C1_prekey_consumption (db : DB) (a : Nat) (k : Int) (th : Nat) (ops : List KeyOp)
    (hwf : db.one_time_prekeys.Pairwise
      (fun r s => ¬ (r.account_id = s.account_id ∧ r.key_id = s.key_id)))
    (hfetch : bundleOTPKKeyId (getBundleHandler db a th).1 = some k)
    (hno : ∀ op ∈ ops, replenishesPair a k op = false) :
    (∃ r ∈ db.one_time_prekeys, r.account_id = a ∧ r.key_id = k ∧
        (∀ s ∈ db.one_time_prekeys, s.account_id = a → r.rowId ≤ s.rowId) ∧
        (getBundleHandler db a th).2.one_time_prekeys
          = db.one_time_prekeys.filter (fun s => ¬ s.rowId = r.rowId)) ∧
    (∀ l1 l2, ops = l1 ++ l2 →
        otpkPairPresent (runKeyOps (getBundleHandler db a th).2 l1) a k = false ∧
        ∀ th2, ¬ bundleOTPKKeyId
          (getBundleHandler (runKeyOps (getBundleHandler db a th).2 l1) a th2).1 = some k) ∧
    (∀ (db2 : DB) (t th2 : Nat),
        db2.one_time_prekeys.filter (fun q => q.account_id = t) = [] →
        bundleOTPKSlot (getBundleHandler db2 t th2).1 = none ∨
        (bundleOTPKSlot (getBundleHandler db2 t th2).1 = some none ∧
         (getBundleHandler db2 t th2).2 = db2)) := by
  rcases getBundle_consumed db a th k hfetch with ⟨r, hcons, hk, hdb2⟩
  rcases consumeOTPK_some db a r hcons with ⟨hmem, hacct, hmin, hrows⟩
  have habs0 : otpkPairPresent (getBundleHandler db a th).2 a k = false := by
    rw [Bool.eq_false_iff]
    intro hpres
    unfold otpkPairPresent at hpres
    rw [List.any_eq_true] at hpres
    rcases hpres with ⟨s, hsmem, hsprop⟩
    rw [hdb2] at hsmem
    rw [hrows] at hsmem
    rcases List.mem_filter.mp hsmem with ⟨hsdb, hsid⟩
    rw [decide_eq_true_eq] at hsprop
    have hner : ¬ s = r := by
      intro he
      rw [he] at hsid
      simp at hsid
    exact pairwise_distinct_pairs db.one_time_prekeys hwf s hsdb r hmem hner
      ⟨hsprop.1.trans hacct.symm, hsprop.2.trans hk.symm⟩
  refine ⟨⟨r, hmem, hacct, hk, hmin, by rw [hdb2, hrows]⟩, ?_, ?_⟩
  · intro l1 l2 hsplit
    have hno1 : ∀ op ∈ l1, replenishesPair a k op = false := by
      intro op hop
      exact hno op (by rw [hsplit]; exact List.mem_append_left l2 hop)
    have habs : otpkPairPresent (runKeyOps (getBundleHandler db a th).2 l1) a k = false :=
      runKeyOps_absent a k l1 _ hno1 habs0
    refine ⟨habs, fun th2 hret => ?_⟩
    have := fetch_returns_present _ a th2 k hret
    rw [habs] at this
    exact Bool.noConfusion this
  · intro db2 t th2 hempty
    cases hacct2 : accountById db2 t with
    | none => exact Or.inl (by simp [getBundleHandler, hacct2, bundleOTPKSlot])
    | some acc2 =>
      cases hspk2 : db2.signed_prekeys.find? (fun s => s.account_id = t) with
      | none => exact Or.inl (by simp [getBundleHandler, hacct2, hspk2, bundleOTPKSlot])
      | some spk2 =>
        have hnone : (consumeOTPK db2 t).1 = none :=
          (consumeOTPK_none_iff db2 t).1.mpr hempty
        have hsame : (consumeOTPK db2 t).2 = db2 :=
          (consumeOTPK_none_iff db2 t).2 hnone
        refine Or.inr ⟨?_, ?_⟩
        · simp [getBundleHandler, hacct2, hspk2, bundleOTPKSlot, hnone]
        · simp [getBundleHandler, hacct2, hspk2, hsame]

/-- C1 witness: on `C1db` the fetch consumes pair (100, 1) and, with an
empty interim trace, a second fetch no longer finds that pair. -/
theorem C1_prekey_consumption_witness :
    otpkPairPresent (runKeyOps (getBundleHandler C1db 100 10).2 []) 100 1 = false :=
  ((C1_prekey_consumption C1db 100 1 10 [] (by decide) (by decide)
      (by intro op hop; exact absurd hop (List.not_mem_nil op))).2.1 [] [] rfl).1

/-! ## Drain order — lemmas about `sortById` -/

/-- Membership in an ordered insert. -/
theorem mem_insertById (m x : MsgRow) (l : List MsgRow) :
    x ∈ insertById m l ↔ x = m ∨ x ∈ l := by
  induction l with
  | nil => simp [insertById]
  | cons y ys ih =>
    by_cases hle : m.id ≤ y.id
    · simp [insertById, hle]
    · simp [insertById, hle, ih]
      tauto

/-- Length of an ordered insert. -/
theorem length_insertById (m : MsgRow) (l : List MsgRow) :
    (insertById m l).length = l.length + 1 := by
  induction l with
  | nil => rfl
  | cons y ys ih =>
    by_cases hle : m.id ≤ y.id
    · simp [insertById, hle]
    · simp [insertById, hle, ih]

/-- Ordered insert preserves ascending-id sortedness. -/
theorem pairwise_insertById (m : MsgRow) (l : List MsgRow)
    (h : l.Pairwise (fun a b => a.id ≤ b.id)) :
    (insertById m l).Pairwise (fun a b => a.id ≤ b.id) := by
  induction l with
  | nil => simp [insertById]
  | cons y ys ih =>
    rcases List.pairwise_cons.mp h with ⟨hy, hys⟩
    by_cases hle : m.id ≤ y.id
    · simp only [insertById, hle, if_pos]
      rw [List.pairwise_cons]
      refine ⟨fun b hb => ?_, h⟩
      rcases List.mem_cons.mp hb with h1 | h1
      · rw [h1]; exact hle
      · exact Nat.le_trans hle (hy b h1)
    · simp only [insertById, hle, if_neg, not_false_iff]
      rw [List.pairwise_cons]
      refine ⟨fun b hb => ?_, ih hys⟩
      rcases (mem_insertById m b ys).mp hb with h1 | h1
      · rw [h1]; omega
      · exact hy b h1

/-- Membership is preserved by the sort. -/
theorem mem_sortById (x : MsgRow) (l : List MsgRow) :
    x ∈ sortById l ↔ x ∈ l := by
  induction l with
  | nil => simp [sortById]
  | cons y ys ih => simp [sortById, mem_insertById, ih]

/-- Length is preserved by the sort. -/
theorem length_sortById (l : List MsgRow) :
    (sortById l).length = l.length := by
  induction l with
  | nil => rfl
  | cons y ys ih => simp [sortById, length_insertById, ih]

/-- The sort produces an ascending-id list. -/
theorem pairwise_sortById (l : List MsgRow) :
    (sortById l).Pairwise (fun a b => a.id ≤ b.id) := by
  induction l with
  | nil => simp [sortById]
  | cons y ys ih => exact pairwise_insertById y (sortById ys) ih

/-- Concrete store for C2: one account (id 200) and a
`gen_random_uuid()` supply that yields 5 and then 3 — a perfectly
possible draw of random 128-bit identifiers. -/
def C2db : DB := ⟨[⟨200, [9], 1⟩], [], [], [], 1, [5, 3]⟩

/-- C2, counterexample to the claim as stated: queue identifiers come
from `gen_random_uuid()` and are not monotone in send order.  On `C2db`
the first send to account 200 draws id 5 and the second draws id 3, so
the message sent first has the LARGER identifier and appears SECOND in
the drain result — "the one sent first has the smaller identifier and
appears first" fails. -/
theorem C2_counterexample :
    (sendHandler C2db 1 ⟨some 200, some "aa", none⟩ 0).1 = SendResp.created 5 ∧
    (sendHandler (sendHandler C2db 1 ⟨some 200, some "aa", none⟩ 0).2 1
        ⟨some 200, some "bb", none⟩ 0).1 = SendResp.created 3 ∧
    receiveHandler
        (sendHandler (sendHandler C2db 1 ⟨some 200, some "aa", none⟩ 0).2 1
          ⟨some 200, some "bb", none⟩ 0).2 200
      = [(3, "bb", 1), (5, "aa", 1)] := by decide

/-- C2 (amended): drain returns at most 100 queued rows, all belonging
to the authenticated recipient, in ascending identifier order, and
returns every queued row of that recipient when there are at most 100;
identifiers are random UUIDs drawn at send time, so ascending-id order
is a stable total order on the queue but does not in general coincide
with send order. -/
theorem C2_drain_order (db : DB) (acct : Nat) :
    (receiveRows db acct).length ≤ 100 ∧
    (∀ r ∈ receiveRows db acct, r ∈ db.message_queue ∧ r.recipient_id = acct) ∧
    (receiveRows db acct).Pairwise (fun a b => a.id ≤ b.id) ∧
    ((db.message_queue.filter (fun r => r.recipient_id = acct)).length ≤ 100 →
      ∀ r ∈ db.message_queue, r.recipient_id = acct → r ∈ receiveRows db acct) := by
  refine ⟨?_, ?_, ?_, ?_⟩
  · unfold receiveRows
    rw [List.length_take]
    exact Nat.min_le_left _ _
  · intro r hr
    unfold receiveRows at hr
    have h1 : r ∈ sortById (db.message_queue.filter (fun q => q.recipient_id = acct)) :=
      List.take_subset _ _ hr
    have h2 := (mem_sortById r _).mp h1
    rcases List.mem_filter.mp h2 with ⟨hmem, hprop⟩
    exact ⟨hmem, by simpa using hprop⟩
  · unfold receiveRows
    exact (pairwise_sortById _).sublist (List.take_sublist _ _)
  · intro hlen r hmem hrec
    unfold receiveRows
    have hlist : r ∈ sortById (db.message_queue.filter (fun q => q.recipient_id = acct)) :=
      (mem_sortById r _).mpr (List.mem_filter.mpr ⟨hmem, by simpa using hrec⟩)
    rw [List.take_of_length_le]
    · exact hlist
    · rw [length_sortById]
      exact hlen

/-- C2 witness: drain facts at the concrete store `C2db`. -/
theorem C2_drain_order_witness : (receiveRows C2db 200).length ≤ 100 :=
  (C2_drain_order C2db 200).1

/-! ## Register — lemmas about the plain insert loop -/

/-- The rows the register loop appends on full success: one row per
uploaded key, with consecutive `SERIAL` ids. -/
def batchRows (acct serial : Nat) : List OTPKBody → List OTPKRow
  | [] => []
  | k :: ks => ⟨serial, acct, k.key_id, hexDecode k.public_key⟩ :: batchRows acct (serial + 1) ks

/-- The register insert loop never touches accounts, signed prekeys,
the message queue, or the UUID supply. -/
theorem insertOTPKsStrict_frame (acct : Nat) :
    ∀ (ks : List OTPKBody) (db : DB),
      (insertOTPKsStrict db acct ks).2.accounts = db.accounts ∧
      (insertOTPKsStrict db acct ks).2.signed_prekeys = db.signed_prekeys ∧
      (insertOTPKsStrict db acct ks).2.message_queue = db.message_queue ∧
      (insertOTPKsStrict db acct ks).2.uuidSupply = db.uuidSupply := by
  intro ks
  induction ks with
  | nil => intro db; exact ⟨rfl, rfl, rfl, rfl⟩
  | cons k rest ih =>
    intro db
    by_cases hp : otpkPairPresent db acct k.key_id
    · simp [insertOTPKsStrict, hp]
    · simp only [insertOTPKsStrict, hp, Bool.false_eq_true, if_false]
      exact ih _

/-- The register insert loop only appends rows. -/
theorem insertOTPKsStrict_mono (acct : Nat) :
    ∀ (ks : List OTPKBody) (db : DB) (r : OTPKRow),
      r ∈ db.one_time_prekeys → r ∈ (insertOTPKsStrict db acct ks).2.one_time_prekeys := by
  intro ks
  induction ks with
  | nil => intro db r h; exact h
  | cons k rest ih =>
    intro db r h
    by_cases hp : otpkPairPresent db acct k.key_id
    · simp [insertOTPKsStrict, hp, h]
    · simp only [insertOTPKsStrict, hp, Bool.false_eq_true, if_false]
      exact ih _ r (List.mem_append_left _ h)

/-- Pair presence is monotone under the loop's appends. -/
theorem otpkPairPresent_mono_append (db : DB) (row : OTPKRow) (n : Nat) (a : Nat) (y : Int)
    (h : otpkPairPresent db a y = true) :
    otpkPairPresent
      { db with one_time_prekeys := db.one_time_prekeys ++ [row], otpkSerial := n } a y = true := by
  unfold otpkPairPresent at h ⊢
  simp only [List.any_append, Bool.or_eq_true]
  exact Or.inl h

/-- If some uploaded key already collides, the strict loop fails. -/
theorem insertOTPKsStrict_collides (acct : Nat) :
    ∀ (ks : List OTPKBody) (db : DB),
      (∃ k ∈ ks, otpkPairPresent db acct k.key_id = true) →
      (insertOTPKsStrict db acct ks).1 = false := by
  intro ks
  induction ks with
  | nil => intro db h; rcases h with ⟨k, hk, _⟩; exact absurd hk (List.not_mem_nil k)
  | cons k rest ih =>
    intro db h
    by_cases hp : otpkPairPresent db acct k.key_id
    · simp [insertOTPKsStrict, hp]
    · simp only [insertOTPKsStrict, hp, Bool.false_eq_true, if_false]
      rcases h with ⟨k2, hk2, hpres⟩
      rcases List.mem_cons.mp hk2 with h1 | h1
      · rw [h1] at hpres; exact absurd hpres hp
      · exact ih _ ⟨k2, h1, otpkPairPresent_mono_append db _ _ acct k2.key_id hpres⟩

/-- A duplicated key id in the uploaded batch makes the strict loop
fail (this is the 23505 unique violation of registration). -/
theorem insertOTPKsStrict_dup (acct : Nat) :
    ∀ (ks : List OTPKBody) (db : DB),
      ¬ (ks.map OTPKBody.key_id).Nodup →
      (insertOTPKsStrict db acct ks).1 = false := by
  intro ks
  induction ks with
  | nil => intro db h; exact absurd List.nodup_nil h
  | cons k rest ih =>
    intro db h
    by_cases hp : otpkPairPresent db acct k.key_id
    · simp [insertOTPKsStrict, hp]
    · simp only [insertOTPKsStrict, hp, Bool.false_eq_true, if_false]
      rw [List.map_cons, List.nodup_cons] at h
      by_cases hmem : k.key_id ∈ rest.map OTPKBody.key_id
      · rcases List.mem_map.mp hmem with ⟨k2, hk2, hkeq⟩
        apply insertOTPKsStrict_collides acct rest _ ⟨k2, hk2, ?_⟩
        unfold otpkPairPresent
        simp only [List.any_append, List.any_cons, List.any_nil, Bool.or_false, Bool.or_eq_true]
        right
        simp [hkeq]
      · apply ih
        intro hnd
        exact h ⟨hmem, hnd⟩

/-- On a batch of fresh, pairwise distinct key ids the strict loop
succeeds and appends exactly one row per key. -/
theorem insertOTPKsStrict_success (acct : Nat) :
    ∀ (ks : List OTPKBody) (db : DB),
      (∀ k ∈ ks, otpkPairPresent db acct k.key_id = false) →
      (ks.map OTPKBody.key_id).Nodup →
      insertOTPKsStrict db acct ks =
        (true, { db with
                 one_time_prekeys := db.one_time_prekeys ++ batchRows acct db.otpkSerial ks,
                 otpkSerial := db.otpkSerial + ks.length }) := by
  intro ks
  induction ks with
  | nil =>
    intro db _ _
    simp [insertOTPKsStrict, batchRows]
  | cons k rest ih =>
    intro db hfresh hnd
    have hp : otpkPairPresent db acct k.key_id = false :=
      hfresh k (List.mem_cons_self _ _)
    simp only [insertOTPKsStrict, hp, Bool.false_eq_true, if_false]
    rw [List.map_cons, List.nodup_cons] at hnd
    have hfresh2 : ∀ k2 ∈ rest,
        otpkPairPresent
          { db with
            one_time_prekeys := db.one_time_prekeys
              ++ [⟨db.otpkSerial, acct, k.key_id, hexDecode k.public_key⟩],
            otpkSerial := db.otpkSerial + 1 } acct k2.key_id = false := by
      intro k2 hk2
      have h1 : otpkPairPresent db acct k2.key_id = false :=
        hfresh k2 (List.mem_cons_of_mem _ hk2)
      unfold otpkPairPresent at h1 ⊢
      simp only [List.any_append, List.any_cons, List.any_nil, Bool.or_false,
        Bool.or_eq_false_iff]
      refine ⟨h1, ?_⟩
      rw [decide_eq_false_iff_not]
      intro hcon
      exact hnd.1 (hcon.2 ▸ List.mem_map_of_mem OTPKBody.key_id hk2)
    rw [ih _ hfresh2 hnd.2]
    simp only [batchRows, Prod.mk.injEq, true_and]
    rw [DB.mk.injEq]
    refine ⟨rfl, rfl, ?_, rfl, ?_, rfl⟩
    · simp [List.append_assoc]
    · simp only [List.length_cons]
      omega

/-- C3, counterexample to the claim as stated: registering with a batch
whose two one-time prekeys share key id 1 makes the second prekey
insert raise the 23505 unique violation (mapped to 409), yet the
account row, the signed-prekey row and the first prekey row all
persist, because the three inserts run as separate auto-committed
statements with no surrounding transaction. -/
theorem C3_counterexample :
    (registerHandler (fun _ _ _ => true) ⟨[], [], [], [], 0, [9]⟩
        ⟨some (String.mk (List.replicate 64 'a')), some 7, some ⟨1, "bb", "cc"⟩,
         some [⟨1, "dd"⟩, ⟨1, "ee"⟩]⟩).1 = RegisterResp.keyAlreadyRegistered ∧
    (registerHandler (fun _ _ _ => true) ⟨[], [], [], [], 0, [9]⟩
        ⟨some (String.mk (List.replicate 64 'a')), some 7, some ⟨1, "bb", "cc"⟩,
         some [⟨1, "dd"⟩, ⟨1, "ee"⟩]⟩).2.accounts = [⟨9, List.replicate 32 170, 7⟩] ∧
    (registerHandler (fun _ _ _ => true) ⟨[], [], [], [], 0, [9]⟩
        ⟨some (String.mk (List.replicate 64 'a')), some 7, some ⟨1, "bb", "cc"⟩,
         some [⟨1, "dd"⟩, ⟨1, "ee"⟩]⟩).2.signed_prekeys = [⟨9, 1, [187], [204]⟩] ∧
    (registerHandler (fun _ _ _ => true) ⟨[], [], [], [], 0, [9]⟩
        ⟨some (String.mk (List.replicate 64 'a')), some 7, some ⟨1, "bb", "cc"⟩,
         some [⟨1, "dd"⟩, ⟨1, "ee"⟩]⟩).2.one_time_prekeys = [⟨0, 9, 1, [221]⟩] := by
  decide

/-- C3 (amended): register runs its three inserts as separate
auto-committed statements, not in one transaction.  With a valid body,
a fresh identity key and a fresh account id, registration succeeds and
appends all rows exactly when the uploaded key ids are pairwise
distinct; when the batch repeats a key id, a later insert fails (409),
but the already-committed account and signed-prekey rows persist. -/
theorem C3_register_not_atomic (sigOK : List Nat → List Nat → List Nat → Bool)
    (db : DB) (p : String) (rid : Int) (spk : SPKBody) (otpks : List OTPKBody)
    (hpne : ¬ p = "") (hrid : ¬ rid = 0)
    (hlen : (hexDecode p).length = 32)
    (hsig : sigOK (hexDecode spk.signature) (hexDecode spk.public_key) (hexDecode p) = true)
    (hfresh : accountByPubKey db (hexDecode p) = none)
    (hnospk : db.signed_prekeys.find? (fun s => s.account_id = db.uuidSupply.headD 0) = none)
    (hnootpk : ∀ k ∈ otpks, otpkPairPresent db (db.uuidSupply.headD 0) k.key_id = false) :
    ((otpks.map OTPKBody.key_id).Nodup →
      registerHandler sigOK db ⟨some p, some rid, some spk, some otpks⟩ =
        (RegisterResp.created (db.uuidSupply.headD 0),
         { accounts := db.accounts ++ [⟨db.uuidSupply.headD 0, hexDecode p, rid⟩],
           signed_prekeys := db.signed_prekeys
             ++ [⟨db.uuidSupply.headD 0, spk.key_id, hexDecode spk.public_key,
                  hexDecode spk.signature⟩],
           one_time_prekeys := db.one_time_prekeys
             ++ batchRows (db.uuidSupply.headD 0) db.otpkSerial otpks,
           message_queue := db.message_queue,
           otpkSerial := db.otpkSerial + otpks.length,
           uuidSupply := db.uuidSupply.tail })) ∧
    (¬ (otpks.map OTPKBody.key_id).Nodup →
      (registerHandler sigOK db ⟨some p, some rid, some spk, some otpks⟩).1
          = RegisterResp.keyAlreadyRegistered ∧
      (⟨db.uuidSupply.headD 0, hexDecode p, rid⟩ : AccountRow)
          ∈ (registerHandler sigOK db ⟨some p, some rid, some spk, some otpks⟩).2.accounts ∧
      (⟨db.uuidSupply.headD 0, spk.key_id, hexDecode spk.public_key,
          hexDecode spk.signature⟩ : SPKRow)
          ∈ (registerHandler sigOK db ⟨some p, some rid, some spk, some otpks⟩).2.signed_prekeys) := by
  have hred : registerHandler sigOK db ⟨some p, some rid, some spk, some otpks⟩
      = (if (insertOTPKsStrict
              { db with
                accounts := db.accounts ++ [⟨db.uuidSupply.headD 0, hexDecode p, rid⟩],
                signed_prekeys := db.signed_prekeys
                  ++ [⟨db.uuidSupply.headD 0, spk.key_id, hexDecode spk.public_key,
                       hexDecode spk.signature⟩],
                uuidSupply := db.uuidSupply.tail }
              (db.uuidSupply.headD 0) otpks).1
         then (RegisterResp.created (db.uuidSupply.headD 0),
               (insertOTPKsStrict
                 { db with
                   accounts := db.accounts ++ [⟨db.uuidSupply.headD 0, hexDecode p, rid⟩],
                   signed_prekeys := db.signed_prekeys
                     ++ [⟨db.uuidSupply.headD 0, spk.key_id, hexDecode spk.public_key,
                          hexDecode spk.signature⟩],
                   uuidSupply := db.uuidSupply.tail }
                 (db.uuidSupply.headD 0) otpks).2)
         else (RegisterResp.keyAlreadyRegistered,
               (insertOTPKsStrict
                 { db with
                   accounts := db.accounts ++ [⟨db.uuidSupply.headD 0, hexDecode p, rid⟩],
                   signed_prekeys := db.signed_prekeys
                     ++ [⟨db.uuidSupply.headD 0, spk.key_id, hexDecode spk.public_key,
                          hexDecode spk.signature⟩],
                   uuidSupply := db.uuidSupply.tail }
                 (db.uuidSupply.headD 0) otpks).2)) := by
    simp only [registerHandler, truthyStr, truthyInt, truthyObj, hpne, hrid, hlen, hsig,
      hfresh, hnospk]
    simp [hpne, hrid, hlen, hsig, hfresh]
  have hfresh2 : ∀ k ∈ otpks, otpkPairPresent
      { db with
        accounts := db.accounts ++ [⟨db.uuidSupply.headD 0, hexDecode p, rid⟩],
        signed_prekeys := db.signed_prekeys
          ++ [⟨db.uuidSupply.headD 0, spk.key_id, hexDecode spk.public_key,
               hexDecode spk.signature⟩],
        uuidSupply := db.uuidSupply.tail }
      (db.uuidSupply.headD 0) k.key_id = false := by
    intro k hk
    exact hnootpk k hk
  constructor
  · intro hnd
    rw [hred, insertOTPKsStrict_success (db.uuidSupply.headD 0) otpks _ hfresh2 hnd]
    simp
  · intro hnd
    have hfail := insertOTPKsStrict_dup (db.uuidSupply.headD 0) otpks
      { db with
        accounts := db.accounts ++ [⟨db.uuidSupply.headD 0, hexDecode p, rid⟩],
        signed_prekeys := db.signed_prekeys
          ++ [⟨db.uuidSupply.headD 0, spk.key_id, hexDecode spk.public_key,
               hexDecode spk.signature⟩],
        uuidSupply := db.uuidSupply.tail } hnd
    rw [hred, hfail]
    have hframe := insertOTPKsStrict_frame (db.uuidSupply.headD 0) otpks
      { db with
        accounts := db.accounts ++ [⟨db.uuidSupply.headD 0, hexDecode p, rid⟩],
        signed_prekeys := db.signed_prekeys
          ++ [⟨db.uuidSupply.headD 0, spk.key_id, hexDecode spk.public_key,
               hexDecode spk.signature⟩],
        uuidSupply := db.uuidSupply.tail }
    refine ⟨rfl, ?_, ?_⟩
    · rw [if_neg (by simp)]
      simp only [hframe.1]
      exact List.mem_append_right _ (List.mem_singleton_self _)
    · rw [if_neg (by simp)]
      simp only [hframe.2.1]
      exact List.mem_append_right _ (List.mem_singleton_self _)

/-- C3 witness: a fully valid one-element batch registers atomically in
the happy path, producing exactly the three rows. -/
theorem C3_register_witness :
    registerHandler (fun _ _ _ => true) ⟨[], [], [], [], 0, [9]⟩
        ⟨some (String.mk (List.replicate 64 'a')), some 7, some ⟨1, "bb", "cc"⟩,
         some [⟨1, "dd"⟩]⟩
      = (RegisterResp.created 9,
         ⟨[⟨9, List.replicate 32 170, 7⟩], [⟨9, 1, [187], [204]⟩],
          [⟨0, 9, 1, [221]⟩], [], 1, []⟩) :=
  (C3_register_not_atomic (fun _ _ _ => true) ⟨[], [], [], [], 0, [9]⟩
      (String.mk (List.replicate 64 'a')) 7 ⟨1, "bb", "cc"⟩ [⟨1, "dd"⟩]
      (by decide) (by decide) (by decide) rfl rfl rfl (by decide)).1 (by decide)

/-- C9: a register body in which every field is present but
`registration_id` is the number 0 fails the JavaScript falsiness check
`!registration_id`, so register answers 400 `missing_fields` and writes
nothing. -/
theorem C9_registration_id_zero (sigOK : List Nat → List Nat → List Nat → Bool)
    (db : DB) (p : String) (spk : SPKBody) (otpks : List OTPKBody)
    (hpne : ¬ p = "") :
    registerHandler sigOK db ⟨some p, some 0, some spk, some otpks⟩
      = (RegisterResp.missingFields, db) := by
  simp [registerHandler, truthyStr, truthyInt, truthyObj, hpne]

/-- C9 witness: a concrete, otherwise perfectly valid register body
with `registration_id = 0` is rejected with `missing_fields` and the
store is unchanged. -/
theorem C9_registration_id_zero_witness :
    registerHandler (fun _ _ _ => true) ⟨[], [], [], [], 0, [9]⟩
        ⟨some (String.mk (List.replicate 64 'a')), some 0, some ⟨1, "bb", "cc"⟩,
         some [⟨1, "dd"⟩]⟩
      = (RegisterResp.missingFields, ⟨[], [], [], [], 0, [9]⟩) :=
  C9_registration_id_zero (fun _ _ _ => true) ⟨[], [], [], [], 0, [9]⟩
    (String.mk (List.replicate 64 'a')) ⟨1, "bb", "cc"⟩ [⟨1, "dd"⟩] (by decide)

/-- C5: sealed sender.  The queue row written by send is built from the
recipient, the ciphertext, the classification tag and the expiry only;
the authenticated sender, although in scope in the handler, influences
neither the response nor the stored row, and the row type (mirroring
the schema) has no sender column. -/
theorem C5_sealed_sender (db : DB) (s1 s2 : Nat) (body : SendBody) (now : Nat)
    (rid : Nat) (ct : String)
    (hr : body.recipient_id = some rid) (hct : body.ciphertext = some ct)
    (hne : ¬ ct = "") (hsize : (hexDecode ct).length ≤ 262144)
    (hrec : ¬ accountById db rid = none) :
    sendHandler db s1 body now = sendHandler db s2 body now ∧
    (sendHandler db s1 body now).2.message_queue
      = db.message_queue
        ++ [⟨db.uuidSupply.headD 0, rid, hexDecode ct, body.message_type.getD 1,
             now + 2592000⟩] ∧
    (sendHandler db s1 body now).1 = SendResp.created (db.uuidSupply.headD 0) := by
  refine ⟨rfl, ?_, ?_⟩ <;>
  · cases hacc : accountById db rid with
    | none => exact absurd hacc hrec
    | some acc =>
      have hlarge : ¬ 262144 < (hexDecode ct).length := by omega
      simp [sendHandler, hr, hct, hne, hacc, hlarge]

/-- C5 witness: on a concrete store the row stored for sender 1 and
sender 2 is identical and contains exactly recipient, ciphertext, tag
and expiry. -/
theorem C5_sealed_sender_witness :
    (sendHandler C2db 77 ⟨some 200, some "aa", none⟩ 0).2.message_queue
      = [⟨5, 200, [170], 1, 2592000⟩] :=
  by
    have h := (C5_sealed_sender C2db 77 3 ⟨some 200, some "aa", none⟩ 0 200 "aa"
      rfl rfl (by decide) (by decide) (by decide)).2.1
    simpa using h

/-- C6: challenge indistinguishability.  With a public key present and
a 32-byte random draw, the response is always `{nonce}` with 64 hex
characters; the nonce is stored under `challenge:<pubkey>` with expiry
`now + 120` exactly when an account with that key exists, and the
response value does not depend on the account table at all. -/
theorem C6_challenge_indistinguishable (db : DB) (r : Redis) (pk : String)
    (nb : List Nat) (now : Nat)
    (hpk : ¬ pk = "") (hlen : nb.length = 32) :
    challengeHandler db r (some pk) nb now
      = (ChallengeResp.ok (bytesToHex nb),
         if (accountByPubKey db (hexDecode pk)).isSome
         then r.set (String.append "challenge:" pk) (bytesToHex nb) (now + 120)
         else r) ∧
    (bytesToHex nb).length = 64 ∧
    (∀ db2 db3 : DB, (challengeHandler db2 r (some pk) nb now).1
        = (challengeHandler db3 r (some pk) nb now).1) := by
  refine ⟨?_, ?_, ?_⟩
  · cases hacc : accountByPubKey db (hexDecode pk) with
    | none => simp [challengeHandler, truthyStr, hpk, hacc]
    | some acc => simp [challengeHandler, truthyStr, hpk, hacc]
  · rw [bytesToHex_length, hlen]
  · intro db2 db3
    cases hacc2 : accountByPubKey db2 (hexDecode pk) with
    | none =>
      cases hacc3 : accountByPubKey db3 (hexDecode pk) with
      | none => simp [challengeHandler, truthyStr, hpk, hacc2, hacc3]
      | some acc3 => simp [challengeHandler, truthyStr, hpk, hacc2, hacc3]
    | some acc2 =>
      cases hacc3 : accountByPubKey db3 (hexDecode pk) with
      | none => simp [challengeHandler, truthyStr, hpk, hacc2, hacc3]
      | some acc3 => simp [challengeHandler, truthyStr, hpk, hacc2, hacc3]

/-- C6 witness: a concrete challenge for an unknown key returns the
same-shaped 200 `{nonce}` response as for a known key, storing only in
the latter case. -/
theorem C6_challenge_indistinguishable_witness :
    challengeHandler ⟨[], [], [], [], 0, []⟩ ⟨[]⟩ (some "aa") (List.replicate 32 7) 50
      = (ChallengeResp.ok (bytesToHex (List.replicate 32 7)), ⟨[]⟩) := by
  have h := (C6_challenge_indistinguishable ⟨[], [], [], [], 0, []⟩ ⟨[]⟩ "aa"
    (List.replicate 32 7) 50 (by decide) (by decide)).1
  simpa using h

/-- C7: delete removes the queue row exactly when it exists and its
recipient is the authenticated account; any other call answers 404
`message_not_found` and leaves the queue unchanged (in particular a row
addressed to another account survives the attempt). -/
theorem C7_delete_isolation (db : DB) (acct mid : Nat) :
    ((∃ row ∈ db.message_queue, row.id = mid ∧ row.recipient_id = acct) →
       (deleteHandler db acct mid).1 = DeleteResp.deleted ∧
       (deleteHandler db acct mid).2.message_queue
         = db.message_queue.filter (fun r => ¬ (r.id = mid ∧ r.recipient_id = acct))) ∧
    ((¬ ∃ row ∈ db.message_queue, row.id = mid ∧ row.recipient_id = acct) →
       deleteHandler db acct mid = (DeleteResp.messageNotFound, db)) ∧
    (∀ row ∈ db.message_queue, row.id = mid → ¬ row.recipient_id = acct →
       (¬ ∃ q ∈ db.message_queue, q.id = mid ∧ q.recipient_id = acct) →
       (deleteHandler db acct mid).1 = DeleteResp.messageNotFound ∧
       row ∈ (deleteHandler db acct mid).2.message_queue) := by
  by_cases hex : ∃ row ∈ db.message_queue, row.id = mid ∧ row.recipient_id = acct
  · rcases hex with ⟨row, hrow, hprop⟩
    have hmem : row ∈ db.message_queue.filter
        (fun r => decide (r.id = mid ∧ r.recipient_id = acct)) :=
      List.mem_filter.mpr ⟨hrow, by simp [hprop.1, hprop.2]⟩
    have hlen : ¬ (db.message_queue.filter
        (fun r => decide (r.id = mid ∧ r.recipient_id = acct))).length = 0 := by
      intro h0
      rw [List.length_eq_zero] at h0
      rw [h0] at hmem
      exact absurd hmem (List.not_mem_nil row)
    have hres : deleteHandler db acct mid
        = (DeleteResp.deleted,
           { db with message_queue := (db.message_queue.filter (fun r => ¬ (r.id = mid ∧ r.recipient_id = acct))) }) := by
      simp only [deleteHandler]
      rw [if_neg hlen]
    exact ⟨fun _ => ⟨by rw [hres], by rw [hres]⟩,
      fun hnex => absurd ⟨row, hrow, hprop⟩ hnex,
      fun q hq hqid hqrec hnex => absurd ⟨row, hrow, hprop⟩ hnex⟩
  · have hall : ∀ r ∈ db.message_queue, ¬ (r.id = mid ∧ r.recipient_id = acct) := by
      intro r hr hcon
      exact hex ⟨r, hr, hcon⟩
    have hnil : db.message_queue.filter
        (fun r => decide (r.id = mid ∧ r.recipient_id = acct)) = [] := by
      rw [List.filter_eq_nil_iff]
      intro a ha
      simp [hall a ha]
    have hres : deleteHandler db acct mid = (DeleteResp.messageNotFound, db) := by
      simp only [deleteHandler]
      rw [hnil]
      simp
    exact ⟨fun hex2 => absurd hex2 hex, fun _ => hres,
      fun q hq hqid hqrec _ => ⟨by rw [hres], by rw [hres]; exact hq⟩⟩

/-- C7 witness: account 201 attempts to delete message 5 addressed to
account 200 — 404, and the row survives. -/
theorem C7_delete_isolation_witness :
    (deleteHandler ⟨[], [], [], [⟨5, 200, [1], 1, 99⟩], 0, []⟩ 201 5).1
        = DeleteResp.messageNotFound ∧
    (⟨5, 200, [1], 1, 99⟩ : MsgRow)
        ∈ (deleteHandler ⟨[], [], [], [⟨5, 200, [1], 1, 99⟩], 0, []⟩ 201 5).2.message_queue :=
  (C7_delete_isolation ⟨[], [], [], [⟨5, 200, [1], 1, 99⟩], 0, []⟩ 201 5).2.2
    ⟨5, 200, [1], 1, 99⟩ (by decide) (by decide) (by decide) (by decide)

/-- The replenish upsert loop appends only rows for the authenticated
account whose key id occurs in the batch and whose pair was absent when
the loop reached them; every pre-existing row is kept untouched. -/
theorem insertOTPKsDoNothing_spec (acct : Nat) :
    ∀ (ks : List OTPKBody) (db : DB),
      ∃ tail, (insertOTPKsDoNothing db acct ks).one_time_prekeys
          = db.one_time_prekeys ++ tail ∧
        ∀ r ∈ tail, r.account_id = acct ∧ r.key_id ∈ ks.map OTPKBody.key_id ∧
          otpkPairPresent db acct r.key_id = false := by
  intro ks
  induction ks with
  | nil =>
    intro db
    exact ⟨[], by simp [insertOTPKsDoNothing], by simp⟩
  | cons k rest ih =>
    intro db
    by_cases hp : otpkPairPresent db acct k.key_id
    · rcases ih db with ⟨tail, heq, hprop⟩
      refine ⟨tail, by simp [insertOTPKsDoNothing, insertOTPKDoNothing, hp, heq], ?_⟩
      intro r hr
      rcases hprop r hr with ⟨h1, h2, h3⟩
      exact ⟨h1, by rw [List.map_cons]; exact List.mem_cons_of_mem _ h2, h3⟩
    · rcases ih { db with
        one_time_prekeys := db.one_time_prekeys
          ++ [⟨db.otpkSerial, acct, k.key_id, hexDecode k.public_key⟩],
        otpkSerial := db.otpkSerial + 1 } with ⟨tail, heq, hprop⟩
      refine ⟨⟨db.otpkSerial, acct, k.key_id, hexDecode k.public_key⟩ :: tail, ?_, ?_⟩
      · have hstep : insertOTPKsDoNothing db acct (k :: rest)
            = insertOTPKsDoNothing { db with
                one_time_prekeys := db.one_time_prekeys
                  ++ [⟨db.otpkSerial, acct, k.key_id, hexDecode k.public_key⟩],
                otpkSerial := db.otpkSerial + 1 } acct rest := by
          simp [insertOTPKsDoNothing, insertOTPKDoNothing, hp]
        rw [hstep, heq]
        simp
      · intro r hr
        rcases List.mem_cons.mp hr with h1 | h1
        · subst h1
          refine ⟨rfl, by simp, by rw [Bool.eq_false_iff]; exact hp⟩
        · rcases hprop r h1 with ⟨h1a, h2a, h3a⟩
          refine ⟨h1a, by rw [List.map_cons]; exact List.mem_cons_of_mem _ h2a, ?_⟩
          cases hpd : otpkPairPresent db acct r.key_id with
          | false => rfl
          | true =>
            exfalso
            have := otpkPairPresent_mono_append db
              ⟨db.otpkSerial, acct, k.key_id, hexDecode k.public_key⟩
              (db.otpkSerial + 1) acct r.key_id hpd
            rw [this] at h3a
            exact Bool.noConfusion h3a

/-- C8: replenish with 1..200 prekeys upserts each under the unique
(account, key id) pair: pre-existing rows are all kept, every new row
belongs to the authenticated account with a key id from the batch, a
pair that already exists is a silent no-op (the rows carrying that pair
are exactly the ones before), and the response reports the batch length
and the new pool total. -/
theorem C8_replenish_idempotent (db : DB) (acct : Nat) (ks : List OTPKBody)
    (hone : 1 ≤ ks.length) (htwo : ks.length ≤ 200) :
    (replenishHandler db acct (some ks)).1
        = ReplenishResp.ok ks.length (otpkCount (replenishHandler db acct (some ks)).2 acct) ∧
    (∀ r ∈ db.one_time_prekeys, r ∈ (replenishHandler db acct (some ks)).2.one_time_prekeys) ∧
    (∀ r ∈ (replenishHandler db acct (some ks)).2.one_time_prekeys,
        r ∈ db.one_time_prekeys ∨ (r.account_id = acct ∧ r.key_id ∈ ks.map OTPKBody.key_id)) ∧
    (∀ k : Int, otpkPairPresent db acct k = true →
        (replenishHandler db acct (some ks)).2.one_time_prekeys.filter
            (fun r => r.account_id = acct ∧ r.key_id = k)
          = db.one_time_prekeys.filter (fun r => r.account_id = acct ∧ r.key_id = k)) := by
  have h0 : ¬ ks.length = 0 := by omega
  have h200 : ¬ 200 < ks.length := by omega
  have hred : replenishHandler db acct (some ks)
      = (ReplenishResp.ok ks.length (otpkCount (insertOTPKsDoNothing db acct ks) acct),
         insertOTPKsDoNothing db acct ks) := by
    simp [replenishHandler, h0, h200]
  rcases insertOTPKsDoNothing_spec acct ks db with ⟨tail, heq, hprop⟩
  refine ⟨by rw [hred], ?_, ?_, ?_⟩
  · intro r hr
    rw [hred]
    rw [heq]
    exact List.mem_append_left _ hr
  · intro r hr
    rw [hred] at hr
    rw [heq] at hr
    rcases List.mem_append.mp hr with h1 | h1
    · exact Or.inl h1
    · rcases hprop r h1 with ⟨h1a, h2a, _⟩
      exact Or.inr ⟨h1a, h2a⟩
  · intro k hk
    rw [hred]
    rw [heq, List.filter_append]
    have htail : tail.filter (fun r => decide (r.account_id = acct ∧ r.key_id = k)) = [] := by
      rw [List.filter_eq_nil_iff]
      intro r hr
      rcases hprop r hr with ⟨_, _, h3a⟩
      rw [decide_eq_true_eq]
      intro hcon
      rw [hcon.2] at h3a
      rw [hk] at h3a
      exact Bool.noConfusion h3a
    rw [htail, List.append_nil]

/-- C8 witness: uploading key ids 1 and 2 when (9, 1) already exists is
a no-op on key 1 and inserts key 2; the response reports 2 uploaded and
a pool total of 2. -/
theorem C8_replenish_idempotent_witness :
    (replenishHandler ⟨[], [], [⟨0, 9, 1, [2]⟩], [], 1, []⟩ 9
        (some [⟨1, "dd"⟩, ⟨2, "ee"⟩])).1 = ReplenishResp.ok 2 2 := by
  rw [(C8_replenish_idempotent ⟨[], [], [⟨0, 9, 1, [2]⟩], [], 1, []⟩ 9
    [⟨1, "dd"⟩, ⟨2, "ee"⟩] (by decide) (by decide)).1]
  decide

/-! ## Auth operation traces (for challenge single-use) -/

/-- An authentication operation hitting the ephemeral store: a
challenge request (with the 32-byte draw it made) or a verify attempt,
each time-stamped. -/
inductive AOp where
  | challenge (pk : String) (nonceBytes : List Nat) (t : Nat)
  | verify (pk sig : String) (t : Nat) (jti : Nat)
deriving DecidableEq

/-- Effect of one auth operation on the ephemeral store (the account
table is read-only for these routes). -/
def authStep (sigOK : List Nat → List Nat → List Nat → Bool) (db : DB)
    (r : Redis) : AOp → Redis
  | .challenge pk nb t => (challengeHandler db r (some pk) nb t).2
  | .verify pk sig t j => (verifyHandler sigOK db r (some pk) (some sig) t j).2

/-- A sequence of auth operations, applied left to right. -/
def runAuth (sigOK : List Nat → List Nat → List Nat → Bool) (db : DB)
    (r : Redis) (ops : List AOp) : Redis :=
  List.foldl (authStep sigOK db) r ops

/-- Did verify succeed (mint a token)? -/
def isToken : VerifyResp → Bool
  | .token _ _ => true
  | _ => false

/-- The operation is a verify that consumes exactly the nonce `N` from
the store and succeeds: this is what "a verify accepts the nonce"
means. -/
def acceptsNonce (sigOK : List Nat → List Nat → List Nat → Bool) (db : DB)
    (r : Redis) (N : String) : AOp → Bool
  | .challenge _ _ _ => false
  | .verify pk sig t j =>
    decide ((r.getdel (String.append "challenge:" pk) t).1 = some N) &&
    isToken (verifyHandler sigOK db r (some pk) (some sig) t j).1

/-- Could the operation write the value `N` into the store?  Only a
challenge whose random draw encodes to `N` can. -/
def mayStoreNonce (N : String) : AOp → Bool
  | .challenge _ nb _ => bytesToHex nb = N
  | .verify _ _ _ _ => false

/-- No entry of the store holds the value `N`. -/
def noValue (r : Redis) (N : String) : Prop := ∀ e ∈ r.entries, ¬ e.value = N

/-- Every entry holding `N` sits under key `K` with expiry `T`. -/
def keyedExp (r : Redis) (N K : String) (T : Nat) : Prop :=
  ∀ e ∈ r.entries, e.value = N → e.key = K ∧ e.expiresAt = T

/-- The store a challenge leaves: unchanged, or with the nonce set
under `challenge:<pubkey>` expiring 120 seconds later. -/
theorem challenge_redis (db : DB) (r : Redis) (pk : String) (nb : List Nat) (t : Nat) :
    (challengeHandler db r (some pk) nb t).2 = r ∨
    (challengeHandler db r (some pk) nb t).2
      = r.set (String.append "challenge:" pk) (bytesToHex nb) (t + 120) := by
  by_cases hpk : pk = ""
  · exact Or.inl (by simp [challengeHandler, truthyStr, hpk])
  · cases hacc : accountByPubKey db (hexDecode pk) with
    | none => exact Or.inl (by simp [challengeHandler, truthyStr, hpk, hacc])
    | some acc => exact Or.inr (by simp [challengeHandler, truthyStr, hpk, hacc])

/-- The store a verify leaves: unchanged (missing fields), or with the
key `challenge:<pubkey>` removed by `getdel`. -/
theorem verify_redis (sigOK : List Nat → List Nat → List Nat → Bool) (db : DB)
    (r : Redis) (pk sig : String) (t j : Nat) :
    (verifyHandler sigOK db r (some pk) (some sig) t j).2 = r ∨
    (verifyHandler sigOK db r (some pk) (some sig) t j).2
      = (r.getdel (String.append "challenge:" pk) t).2 := by
  by_cases hpk : pk = ""
  · exact Or.inl (by simp [verifyHandler, truthyStr, hpk])
  · by_cases hsig : sig = ""
    · exact Or.inl (by simp [verifyHandler, truthyStr, hpk, hsig])
    · right
      cases hget : (r.getdel (String.append "challenge:" pk) t).1 with
      | none => simp [verifyHandler, truthyStr, hpk, hsig, hget]
      | some nonce =>
        by_cases hval : sigOK (hexDecode sig) (hexDecode nonce) (hexDecode pk) = true
        · cases hacc : accountByPubKey db (hexDecode pk) with
          | none => simp [verifyHandler, truthyStr, hpk, hsig, hget, hval, hacc]
          | some acc => simp [verifyHandler, truthyStr, hpk, hsig, hget, hval, hacc]
        · simp [verifyHandler, truthyStr, hpk, hsig, hget, hval]

/-- `set` with a value other than `N` preserves `noValue`. -/
theorem noValue_set (r : Redis) (N k v : String) (T : Nat)
    (hv : ¬ v = N) (h : noValue r N) : noValue (r.set k v T) N := by
  intro e he
  rcases List.mem_cons.mp he with h1 | h1
  · rw [h1]; exact hv
  · exact h e (List.mem_filter.mp h1).1

/-- `getdel` preserves `noValue`. -/
theorem noValue_getdel (r : Redis) (N k : String) (t : Nat)
    (h : noValue r N) : noValue (r.getdel k t).2 N := by
  intro e he
  exact h e (List.mem_filter.mp he).1

/-- A step that cannot store `N` preserves `noValue`. -/
theorem noValue_step (sigOK : List Nat → List Nat → List Nat → Bool) (db : DB)
    (N : String) (op : AOp) (hop : mayStoreNonce N op = false)
    (r : Redis) (h : noValue r N) : noValue (authStep sigOK db r op) N := by
  cases op with
  | challenge pk nb t =>
    rcases challenge_redis db r pk nb t with hr | hr
    · rw [authStep, hr]; exact h
    · rw [authStep, hr]
      apply noValue_set r N _ _ _ _ h
      simp only [mayStoreNonce, decide_eq_false_iff_not] at hop
      exact hop
  | verify pk sig t j =>
    rcases verify_redis sigOK db r pk sig t j with hr | hr
    · rw [authStep, hr]; exact h
    · rw [authStep, hr]; exact noValue_getdel r N _ t h

/-- A run of steps none of which can store `N` preserves `noValue`. -/
theorem noValue_run (sigOK : List Nat → List Nat → List Nat → Bool) (db : DB)
    (N : String) :
    ∀ (ops : List AOp) (r : Redis),
      (∀ op ∈ ops, mayStoreNonce N op = false) →
      noValue r N → noValue (runAuth sigOK db r ops) N := by
  intro ops
  induction ops with
  | nil => intro r _ h; exact h
  | cons op rest ih =>
    intro r hops h
    simp only [runAuth, List.foldl_cons]
    exact ih _ (fun o ho => hops o (List.mem_cons_of_mem _ ho))
      (noValue_step sigOK db N op (hops op (List.mem_cons_self _ _)) r h)

/-- `set` with a value other than `N` preserves `keyedExp`. -/
theorem keyedExp_set (r : Redis) (N K k v : String) (T e2 : Nat)
    (hv : ¬ v = N) (h : keyedExp r N K T) : keyedExp (r.set k v e2) N K T := by
  intro e he hval
  rcases List.mem_cons.mp he with h1 | h1
  · rw [h1] at hval; exact absurd hval hv
  · exact h e (List.mem_filter.mp h1).1 hval

/-- `getdel` preserves `keyedExp`. -/
theorem keyedExp_getdel (r : Redis) (N K k : String) (T t : Nat)
    (h : keyedExp r N K T) : keyedExp (r.getdel k t).2 N K T := by
  intro e he hval
  exact h e (List.mem_filter.mp he).1 hval

/-- A step that cannot store `N` preserves `keyedExp`. -/
theorem keyedExp_step (sigOK : List Nat → List Nat → List Nat → Bool) (db : DB)
    (N K : String) (T : Nat) (op : AOp) (hop : mayStoreNonce N op = false)
    (r : Redis) (h : keyedExp r N K T) : keyedExp (authStep sigOK db r op) N K T := by
  cases op with
  | challenge pk nb t =>
    rcases challenge_redis db r pk nb t with hr | hr
    · rw [authStep, hr]; exact h
    · rw [authStep, hr]
      apply keyedExp_set r N K _ _ T _ _ h
      simp only [mayStoreNonce, decide_eq_false_iff_not] at hop
      exact hop
  | verify pk sig t j =>
    rcases verify_redis sigOK db r pk sig t j with hr | hr
    · rw [authStep, hr]; exact h
    · rw [authStep, hr]; exact keyedExp_getdel r N K _ T t h

/-- A run of steps none of which can store `N` preserves `keyedExp`. -/
theorem keyedExp_run (sigOK : List Nat → List Nat → List Nat → Bool) (db : DB)
    (N K : String) (T : Nat) :
    ∀ (ops : List AOp) (r : Redis),
      (∀ op ∈ ops, mayStoreNonce N op = false) →
      keyedExp r N K T → keyedExp (runAuth sigOK db r ops) N K T := by
  intro ops
  induction ops with
  | nil => intro r _ h; exact h
  | cons op rest ih =>
    intro r hops h
    simp only [runAuth, List.foldl_cons]
    exact ih _ (fun o ho => hops o (List.mem_cons_of_mem _ ho))
      (keyedExp_step sigOK db N K T op (hops op (List.mem_cons_self _ _)) r h)

/-- After a challenge whose draw encodes to `N`, issued on a store with
no `N` anywhere, every `N`-valued entry sits under `challenge:<pubkey>`
with expiry `t + 120` (vacuously when the account does not exist and
nothing was stored). -/
theorem keyedExp_after_challenge (db : DB) (r : Redis) (pk : String)
    (nb : List Nat) (t : Nat) (N : String)
    (h : noValue r N) :
    keyedExp ((challengeHandler db r (some pk) nb t).2) N
      (String.append "challenge:" pk) (t + 120) := by
  rcases challenge_redis db r pk nb t with hr | hr
  · rw [hr]
    intro e he hval
    exact absurd hval (h e he)
  · rw [hr]
    intro e he hval
    rcases List.mem_cons.mp he with h1 | h1
    · rw [h1]
      exact ⟨rfl, rfl⟩
    · exact absurd hval (h e (List.mem_filter.mp h1).1)

/-- With both fields present, verify always leaves the store `getdel`
leaves, whatever the outcome. -/
theorem verify_redis_present (sigOK : List Nat → List Nat → List Nat → Bool) (db : DB)
    (r : Redis) (pk sig : String) (t j : Nat)
    (hpk : ¬ pk = "") (hsig : ¬ sig = "") :
    (verifyHandler sigOK db r (some pk) (some sig) t j).2
      = (r.getdel (String.append "challenge:" pk) t).2 := by
  cases hget : (r.getdel (String.append "challenge:" pk) t).1 with
  | none => simp [verifyHandler, truthyStr, hpk, hsig, hget]
  | some nonce =>
    by_cases hval : sigOK (hexDecode sig) (hexDecode nonce) (hexDecode pk) = true
    · cases hacc : accountByPubKey db (hexDecode pk) with
      | none => simp [verifyHandler, truthyStr, hpk, hsig, hget, hval, hacc]
      | some acc => simp [verifyHandler, truthyStr, hpk, hsig, hget, hval, hacc]
    · simp [verifyHandler, truthyStr, hpk, hsig, hget, hval]

/-- An accepting verify has both fields non-empty (otherwise the
handler answers 400 before touching the store). -/
theorem accept_fields (sigOK : List Nat → List Nat → List Nat → Bool) (db : DB)
    (r : Redis) (N pk sig : String) (t j : Nat)
    (h : acceptsNonce sigOK db r N (.verify pk sig t j) = true) :
    ¬ pk = "" ∧ ¬ sig = "" := by
  simp only [acceptsNonce, Bool.and_eq_true] at h
  rcases h with ⟨_, htok⟩
  constructor
  · intro he
    rw [verifyHandler] at htok
    simp [truthyStr, he, isToken] at htok
  · intro he
    rw [verifyHandler] at htok
    simp [truthyStr, he, isToken] at htok

/-- A verify can only accept nonce `N` if a live entry with value `N`
sits under its `challenge:<pubkey>` key. -/
theorem accept_entry (sigOK : List Nat → List Nat → List Nat → Bool) (db : DB)
    (r : Redis) (N pk sig : String) (t j : Nat)
    (h : acceptsNonce sigOK db r N (.verify pk sig t j) = true) :
    ∃ e ∈ r.entries, e.key = String.append "challenge:" pk ∧ e.value = N ∧
      t < e.expiresAt := by
  simp only [acceptsNonce, Bool.and_eq_true, decide_eq_true_eq] at h
  rcases h with ⟨hget, _⟩
  cases hfind : r.entries.find? (fun e => e.key = String.append "challenge:" pk) with
  | none =>
    have hv : (r.getdel (String.append "challenge:" pk) t).1 = none := by
      simp [Redis.getdel, hfind]
    rw [hv] at hget
    exact Option.noConfusion hget
  | some e =>
    by_cases hlive : t < e.expiresAt
    · have hv : (r.getdel (String.append "challenge:" pk) t).1 = some e.value := by
        simp [Redis.getdel, hfind, hlive]
      rw [hv] at hget
      have hkey := List.find?_some hfind
      rw [decide_eq_true_eq] at hkey
      exact ⟨e, List.mem_of_find?_eq_some hfind, hkey, Option.some.inj hget, hlive⟩
    · have hv : (r.getdel (String.append "challenge:" pk) t).1 = none := by
        simp [Redis.getdel, hfind, hlive]
      rw [hv] at hget
      exact Option.noConfusion hget

/-- On a store with no `N` anywhere, no operation accepts `N`. -/
theorem noValue_no_accept (sigOK : List Nat → List Nat → List Nat → Bool) (db : DB)
    (r : Redis) (N : String) (op : AOp) (h : noValue r N) :
    acceptsNonce sigOK db r N op = false := by
  cases op with
  | challenge pk nb t => rfl
  | verify pk sig t j =>
    rw [Bool.eq_false_iff]
    intro hacc
    rcases accept_entry sigOK db r N pk sig t j hacc with ⟨e, he, _, hval, _⟩
    exact h e he hval

/-- When every `N`-valued entry expires at `T`, a verify accepting `N`
must run strictly before `T` — this is the 120-second TTL bound. -/
theorem accept_before_expiry (sigOK : List Nat → List Nat → List Nat → Bool) (db : DB)
    (r : Redis) (N K : String) (T : Nat) (pk sig : String) (t j : Nat)
    (hke : keyedExp r N K T)
    (h : acceptsNonce sigOK db r N (.verify pk sig t j) = true) :
    t < T := by
  rcases accept_entry sigOK db r N pk sig t j h with ⟨e, he, _, hval, hlive⟩
  rcases hke e he hval with ⟨_, hexp⟩
  rw [hexp] at hlive
  exact hlive

/-- After a verify that accepts `N` on a store where every `N`-valued
entry sits under one key, no `N`-valued entry remains: the atomic
`getdel` removed them all. -/
theorem accept_then_noValue (sigOK : List Nat → List Nat → List Nat → Bool) (db : DB)
    (r : Redis) (N K : String) (T : Nat) (pk sig : String) (t j : Nat)
    (hke : keyedExp r N K T)
    (h : acceptsNonce sigOK db r N (.verify pk sig t j) = true) :
    noValue (authStep sigOK db r (.verify pk sig t j)) N := by
  rcases accept_entry sigOK db r N pk sig t j h with ⟨e, he, hkey, hval, _⟩
  have hK : String.append "challenge:" pk = K := by
    rcases hke e he hval with ⟨h1, _⟩
    rw [← h1, hkey]
  rcases accept_fields sigOK db r N pk sig t j h with ⟨hpk, hsig⟩
  rw [authStep, verify_redis_present sigOK db r pk sig t j hpk hsig]
  intro e2 he2 hv2
  rcases List.mem_filter.mp he2 with ⟨he2r, hne2⟩
  rcases hke e2 he2r hv2 with ⟨hk2, _⟩
  rw [decide_eq_true_eq] at hne2
  exact hne2 (by rw [hk2, ← hK])

/-- C4: challenge single-use.  Fix a challenge issued at time `t0`
whose 32-byte draw encodes to a nonce `N` that is nowhere in the store
and that no other operation of the trace can store (fresh randomness).
Then (i) no verify running at or after `t0 + 120` accepts `N` (the
120-second TTL), (ii) once some verify accepts `N`, every later verify
attempt fails to accept it — `getdel` consumed the stored nonce
atomically — and (iii) every well-formed verify that does not mint a
token answers HTTP 401. -/
theorem C4_challenge_single_use (sigOK : List Nat → List Nat → List Nat → Bool)
    (db : DB) (r0 : Redis) (pk : String) (nb : List Nat) (t0 : Nat)
    (pre post : List AOp)
    (h0 : noValue r0 (bytesToHex nb))
    (hpre : ∀ op ∈ pre, mayStoreNonce (bytesToHex nb) op = false)
    (hpost : ∀ op ∈ post, mayStoreNonce (bytesToHex nb) op = false) :
    (∀ l1 p2 s2 t2 j2 l2, post = l1 ++ AOp.verify p2 s2 t2 j2 :: l2 → t0 + 120 ≤ t2 →
        acceptsNonce sigOK db
          (runAuth sigOK db r0 (pre ++ AOp.challenge pk nb t0 :: l1))
          (bytesToHex nb) (AOp.verify p2 s2 t2 j2) = false) ∧
    (∀ l1 v l2 w l3, post = l1 ++ v :: (l2 ++ w :: l3) →
        acceptsNonce sigOK db
          (runAuth sigOK db r0 (pre ++ AOp.challenge pk nb t0 :: l1))
          (bytesToHex nb) v = true →
        acceptsNonce sigOK db
          (runAuth sigOK db r0 (pre ++ AOp.challenge pk nb t0 :: (l1 ++ v :: l2)))
          (bytesToHex nb) w = false) ∧
    (∀ (r : Redis) (p2 s2 : String) (t2 j2 : Nat), ¬ p2 = "" → ¬ s2 = "" →
        ¬ isToken (verifyHandler sigOK db r (some p2) (some s2) t2 j2).1 = true →
        (verifyHandler sigOK db r (some p2) (some s2) t2 j2).1.status = 401) := by
  have hafterpre : noValue (runAuth sigOK db r0 pre) (bytesToHex nb) :=
    noValue_run sigOK db _ pre r0 hpre h0
  have hke0 : keyedExp (runAuth sigOK db r0 (pre ++ [AOp.challenge pk nb t0]))
      (bytesToHex nb) (String.append "challenge:" pk) (t0 + 120) := by
    rw [runAuth, List.foldl_append]
    exact keyedExp_after_challenge db _ pk nb t0 _ hafterpre
  have hsplit : ∀ l : List AOp,
      runAuth sigOK db r0 (pre ++ AOp.challenge pk nb t0 :: l)
        = runAuth sigOK db (runAuth sigOK db r0 (pre ++ [AOp.challenge pk nb t0])) l := by
    intro l
    simp [runAuth, List.foldl_append]
  refine ⟨?_, ?_, ?_⟩
  · intro l1 p2 s2 t2 j2 l2 hpeq ht
    have hl1 : ∀ op ∈ l1, mayStoreNonce (bytesToHex nb) op = false := by
      intro op hop
      exact hpost op (by rw [hpeq]; exact List.mem_append_left _ hop)
    have hke1 := keyedExp_run sigOK db (bytesToHex nb) (String.append "challenge:" pk)
      (t0 + 120) l1 _ hl1 hke0
    rw [hsplit]
    rw [Bool.eq_false_iff]
    intro hacc
    have hlt := accept_before_expiry sigOK db _ _ _ _ p2 s2 t2 j2 hke1 hacc
    omega
  · intro l1 v l2 w l3 hpeq haccv
    have hl1 : ∀ op ∈ l1, mayStoreNonce (bytesToHex nb) op = false := by
      intro op hop
      exact hpost op (by rw [hpeq]; exact List.mem_append_left _ hop)
    have hke1 := keyedExp_run sigOK db (bytesToHex nb) (String.append "challenge:" pk)
      (t0 + 120) l1 _ hl1 hke0
    rw [hsplit] at haccv
    cases v with
    | challenge p3 nb3 t3 => exact absurd haccv (by rw [acceptsNonce]; exact Bool.false_ne_true)
    | verify pv sv tv jv =>
      have hnv := accept_then_noValue sigOK db _ (bytesToHex nb)
        (String.append "challenge:" pk) (t0 + 120) pv sv tv jv hke1 haccv
      have hl2 : ∀ op ∈ l2, mayStoreNonce (bytesToHex nb) op = false := by
        intro op hop
        refine hpost op ?_
        rw [hpeq]
        exact List.mem_append_right _ (List.mem_cons_of_mem _ (List.mem_append_left _ hop))
      have hnv2 := noValue_run sigOK db (bytesToHex nb) l2 _ hl2 hnv
      have hstate : runAuth sigOK db r0
          (pre ++ AOp.challenge pk nb t0 :: (l1 ++ AOp.verify pv sv tv jv :: l2))
          = runAuth sigOK db
              (authStep sigOK db
                (runAuth sigOK db (runAuth sigOK db r0 (pre ++ [AOp.challenge pk nb t0])) l1)
                (AOp.verify pv sv tv jv)) l2 := by
        rw [hsplit]
        simp [runAuth, List.foldl_append]
      rw [hstate]
      exact noValue_no_accept sigOK db _ _ w hnv2
  · intro r p2 s2 t2 j2 hp2 hs2 hnot
    cases hget : (r.getdel (String.append "challenge:" p2) t2).1 with
    | none => simp [verifyHandler, truthyStr, hp2, hs2, hget, VerifyResp.status]
    | some nonce =>
      by_cases hvalid : sigOK (hexDecode s2) (hexDecode nonce) (hexDecode p2) = true
      · cases hacc : accountByPubKey db (hexDecode p2) with
        | none =>
          simp [verifyHandler, truthyStr, hp2, hs2, hget, hvalid, hacc, VerifyResp.status]
        | some acc =>
          exfalso
          apply hnot
          rw [verifyHandler]
          simp [truthyStr, hp2, hs2, hget, hvalid, hacc, isToken]
      · simp [verifyHandler, truthyStr, hp2, hs2, hget, hvalid, VerifyResp.status]

/-- Concrete store for C4 and C10: one account whose identity key is
the byte string decoded from hex "aa". -/
def C4db : DB := ⟨[⟨100, [170], 7⟩], [], [], [], 0, []⟩

/-- C4 witness: concretely, after the challenge at t=0 stores nonce
"01" for key "aa" and a first verify at t=5 accepts it, a second
verify at t=6 no longer accepts it. -/
theorem C4_challenge_single_use_witness :
    acceptsNonce (fun _ _ _ => true) C4db
      (runAuth (fun _ _ _ => true) C4db ⟨[]⟩
        ([] ++ AOp.challenge "aa" [1] 0 :: ([] ++ AOp.verify "aa" "cc" 5 1 :: [])))
      (bytesToHex [1]) (AOp.verify "aa" "cc" 6 2) = false :=
  (C4_challenge_single_use (fun _ _ _ => true) C4db ⟨[]⟩ "aa" [1] 0 []
      [AOp.verify "aa" "cc" 5 1, AOp.verify "aa" "cc" 6 2]
      (by intro e he; exact absurd he (List.not_mem_nil e))
      (by intro op hop; exact absurd hop (List.not_mem_nil op))
      (by decide)).2.1
    [] (AOp.verify "aa" "cc" 5 1) [] (AOp.verify "aa" "cc" 6 2) [] rfl (by decide)

/-- A second `getdel` under the same key finds nothing: the first one
removed the key. -/
theorem getdel_twice (r : Redis) (k : String) (t t2 : Nat) :
    ((r.getdel k t).2.getdel k t2).1 = none := by
  unfold Redis.getdel
  cases hfind : ((r.entries.filter (fun e => ¬ e.key = k)).find? (fun e => e.key = k)) with
  | none => simp [hfind]
  | some e =>
    exfalso
    have h1 := List.find?_some hfind
    have h2 := List.mem_of_find?_eq_some hfind
    have h3 := (List.mem_filter.mp h2).2
    rw [decide_eq_true_eq] at h1
    simp [h1] at h3

/-- `getdel` right after `set` on the same key yields the set value,
as long as the entry has not expired. -/
theorem getdel_after_set (r : Redis) (k v : String) (T t : Nat) (h : t < T) :
    ((r.set k v T).getdel k t).1 = some v := by
  have hfind : ((⟨k, v, T⟩ : RedisEntry) :: r.entries.filter (fun e => ¬ e.key = k)).find?
      (fun e => decide (e.key = k)) = some ⟨k, v, T⟩ :=
    List.find?_cons_of_pos _ (by simp)
  simp [Redis.set, Redis.getdel, hfind, h]

/-- C10: verify calls `getdel` on the stored challenge BEFORE checking
the signature.  With a pending nonce `N` and an invalid signature, the
attempt answers 401 `invalid_signature` yet the nonce is consumed; a
second verify — even one whose signature over `N` would check out —
answers 401 `invalid_or_expired_challenge`; and only after a fresh
challenge is issued does a correctly signed verify mint a token
again. -/
theorem C10_verify_consumes_on_failure (sigOK : List Nat → List Nat → List Nat → Bool)
    (db : DB) (r : Redis) (pk sig1 sig2 N : String) (t j1 j2 : Nat)
    (hpk : ¬ pk = "") (hs1 : ¬ sig1 = "") (hs2 : ¬ sig2 = "")
    (hstored : (r.getdel (String.append "challenge:" pk) t).1 = some N)
    (hbad : sigOK (hexDecode sig1) (hexDecode N) (hexDecode pk) = false) :
    verifyHandler sigOK db r (some pk) (some sig1) t j1
      = (VerifyResp.invalidSignature, (r.getdel (String.append "challenge:" pk) t).2) ∧
    (verifyHandler sigOK db ((r.getdel (String.append "challenge:" pk) t).2)
        (some pk) (some sig2) t j2).1 = VerifyResp.invalidOrExpiredChallenge ∧
    (∀ (nb : List Nat) (t2 j3 : Nat) (acct : AccountRow),
        accountByPubKey db (hexDecode pk) = some acct →
        sigOK (hexDecode sig2) (hexDecode (bytesToHex nb)) (hexDecode pk) = true →
        (verifyHandler sigOK db
            (challengeHandler db ((r.getdel (String.append "challenge:" pk) t).2)
              (some pk) nb t2).2
            (some pk) (some sig2) t2 j3).1 = VerifyResp.token acct.id j3) := by
  refine ⟨?_, ?_, ?_⟩
  · simp [verifyHandler, truthyStr, hpk, hs1, hstored, hbad]
  · simp [verifyHandler, truthyStr, hpk, hs2, getdel_twice]
  · intro nb t2 j3 acct hacct hgood
    have hchal : (challengeHandler db ((r.getdel (String.append "challenge:" pk) t).2)
          (some pk) nb t2).2
        = ((r.getdel (String.append "challenge:" pk) t).2).set
            (String.append "challenge:" pk) (bytesToHex nb) (t2 + 120) := by
      simp [challengeHandler, truthyStr, hpk, hacct]
    rw [hchal]
    have hget2 : ((((r.getdel (String.append "challenge:" pk) t).2).set
          (String.append "challenge:" pk) (bytesToHex nb) (t2 + 120)).getdel
          (String.append "challenge:" pk) t2).1 = some (bytesToHex nb) :=
      getdel_after_set _ _ _ _ _ (by omega)
    simp [verifyHandler, truthyStr, hpk, hs2, hget2, hgood, hacct]

/-- C10 witness: with nonce "01" pending for key "aa", a bad-signature
verify consumes it and a subsequent verify gets 401
`invalid_or_expired_challenge`. -/
theorem C10_verify_consumes_on_failure_witness :
    (verifyHandler (fun s _ _ => decide (s = [204])) C4db
        ((Redis.mk [⟨"challenge:aa", "01", 100⟩]).getdel
          (String.append "challenge:" "aa") 5).2
        (some "aa") (some "cc") 5 2).1 = VerifyResp.invalidOrExpiredChallenge :=
  (C10_verify_consumes_on_failure (fun s _ _ => decide (s = [204])) C4db
      (Redis.mk [⟨"challenge:aa", "01", 100⟩]) "aa" "dd" "cc" "01" 5 1 2
      (by decide) (by decide) (by decide) (by decide) (by decide)).2.1
